import Mathlib

/-!
# caddy-tls-fnmt: client-certificate authorization for FNMT certificates

Shallow embedding of `fnmt.go` (package `tls_client_auth_fnmt`).

Modelling conventions.

* A Go `string` is a sequence of bytes: `len` counts bytes, `s[i:j]` cuts at byte
  offsets and `==` compares byte by byte.  `GoString` is therefore `List Byte`, and
  `go "..."` is the UTF-8 encoding of a source literal.  Lengths and positions of
  strings are always these byte counts; the source comment on the serial number ("6
  characters for IDCES- and 9 for the DNI number") speaks of the same units.  Where a
  statement tells characters from bytes, `characterCount` counts the characters of
  UTF-8 text.
* A Go function either returns or panics.  `Exec α` records which; the three panics
  that the statements of `fnmt.go` can raise are an index out of range, a slice bound
  out of range and a failed type assertion `x.(string)`.
* A Go `error` is `Option GoString`: `none` is `nil`, `some m` is an error whose
  `Error()` text is `m`.
* `x509.ParseCertificate` is an external collaborator and is a parameter of the model.
* The `*zap.Logger` held by the verifier is modelled by the list of records written to
  it so far; `Info` appends one record.  The verifier is provisioned, that is,
  `Provision` has stored the host's logger in it.
-/

namespace FNMT

/-! ## Go strings -/

abbrev Byte := Fin 256

abbrev GoString := List Byte

/-- UTF-8 encoding of one code point. -/
def utf8EncodeChar (c : Nat) : List Nat :=
  if c < 0x80 then [c]
  else if c < 0x800 then [0xC0 + c / 0x40, 0x80 + c % 0x40]
  else if c < 0x10000 then [0xE0 + c / 0x1000, 0x80 + c / 0x40 % 0x40, 0x80 + c % 0x40]
  else [0xF0 + c / 0x40000, 0x80 + c / 0x1000 % 0x40, 0x80 + c / 0x40 % 0x40, 0x80 + c % 0x40]

/-- The bytes of a Go string literal (Go source text is UTF-8). -/
def go (s : String) : GoString :=
  (s.toList.flatMap (fun c => utf8EncodeChar c.toNat)).map (fun b => Fin.ofNat b)

/-- Go panics that the statements of `fnmt.go` can raise. -/
inductive Panic where
  | indexOutOfRange
  | sliceBoundsOutOfRange
  | interfaceConversion
deriving DecidableEq, Repr

/-- Outcome of running Go code: a returned value or a panic. -/
inductive Exec (α : Type) where
  | ret (a : α)
  | panic (p : Panic)
deriving DecidableEq, Repr

/-- Go `error` value: `none` is `nil`. -/
abbrev GoError := Option GoString

/-- Go `len(s)`: number of bytes. -/
def len {α : Type} (s : List α) : Nat := s.length

/-- Go `xs[i]`: panics when `i` is out of range. -/
def index {α : Type} (xs : List α) (i : Nat) : Exec α :=
  match xs.get? i with
  | some x => .ret x
  | none => .panic .indexOutOfRange

/-- Go `s[:n]`: panics when `n > len(s)`. -/
def sliceTo (s : GoString) (n : Nat) : Exec GoString :=
  if n ≤ len s then .ret (s.take n) else .panic .sliceBoundsOutOfRange

/-- Go `s[n:]`: panics when `n > len(s)`. -/
def sliceFrom (s : GoString) (n : Nat) : Exec GoString :=
  if n ≤ len s then .ret (s.drop n) else .panic .sliceBoundsOutOfRange

/-! ## Certificates (`crypto/x509`, `crypto/x509/pkix`, `encoding/asn1`) -/

/-- Go `asn1.ObjectIdentifier`, a `[]int`. -/
abbrev ObjectIdentifier := List Int

/-- Decimal digits of a natural number, most significant first. -/
def decimal (n : Nat) : GoString :=
  (Nat.toDigits 10 n).map (fun c => Fin.ofNat c.toNat)

/-- Go `strconv.AppendInt(buf, v, 10)` on an empty buffer. -/
def formatInt (v : Int) : GoString :=
  if v < 0 then go "-" ++ decimal v.natAbs else decimal v.natAbs

/-- Go `ObjectIdentifier.String`: the components in decimal, separated by dots. -/
def ObjectIdentifier.String : ObjectIdentifier → GoString
  | [] => []
  | [v] => formatInt v
  | v :: w :: rest => formatInt v ++ go "." ++ ObjectIdentifier.String (w :: rest)

/-- Dynamic value of `pkix.AttributeTypeAndValue.Value`, of Go type `interface{}`:
either a `string` or a value of some other dynamic type. -/
inductive AnyValue where
  | str (s : GoString)
  | other
deriving DecidableEq, Repr

/-- Go type assertion `v.(string)`: panics when the dynamic type is not `string`. -/
def AnyValue.assertString : AnyValue → Exec GoString
  | .str s => .ret s
  | .other => .panic .interfaceConversion

/-- Go `pkix.AttributeTypeAndValue`; the field `Type` is spelled `Type_`. -/
structure AttributeTypeAndValue where
  Type_ : ObjectIdentifier
  Value : AnyValue
deriving DecidableEq, Repr

/-- Fields of `pkix.Name` read by the verifier. -/
structure Name where
  Country : List GoString
  SerialNumber : GoString
  CommonName : GoString
  Names : List AttributeTypeAndValue
deriving DecidableEq, Repr

/-- Fields of `x509.Certificate` read by the verifier. -/
structure Certificate where
  Subject : Name
deriving DecidableEq, Repr

/-- Signature of `x509.ParseCertificate`: a certificate, or an error with its text. -/
abbrev Decoder := List Byte → Except GoString Certificate

/-! ## Logger (`go.uber.org/zap`) -/

/-- One record written with `logger.Info(msg, zap.String(key, value))`. -/
structure LogRecord where
  msg : GoString
  key : GoString
  value : GoString
deriving DecidableEq, Repr

/-- Records written to the logger so far. -/
abbrev Logger := List LogRecord

/-- Go `logger.Info(msg, zap.String(key, value))`. -/
def Logger.Info (l : Logger) (msg key value : GoString) : Logger :=
  l ++ [{ msg := msg, key := key, value := value }]

/-! ## The verifier -/

/-- Go `FNMTClientAuth`: the three allow-lists.  The `logger` field is threaded
through `VerifyClientCertificate` as an explicit argument. -/
structure FNMTClientAuth where
  Names : List GoString
  Dnis : List GoString
  NameDnis : List GoString
deriving DecidableEq, Repr

/-- Loop body of `GetFirstAndSurNames` over one subject attribute; the state is
`(surname, givenName)`. -/
def getNamesStep (st : GoString × GoString) (name : AttributeTypeAndValue) :
    Exec (GoString × GoString) :=
  let afterSurname : Exec (GoString × GoString) :=
    if name.Type_.String = go "2.5.4.4" then
      match name.Value.assertString with
      | .ret s => .ret (s, st.2)
      | .panic p => .panic p
    else .ret st
  match afterSurname with
  | .panic p => .panic p
  | .ret st1 =>
    if name.Type_.String = go "2.5.4.42" then
      match name.Value.assertString with
      | .ret s => .ret (st1.1, s)
      | .panic p => .panic p
    else .ret st1

/-- The `for _, name := range cert.Subject.Names` loop of `GetFirstAndSurNames`. -/
def getNamesLoop : List AttributeTypeAndValue → GoString × GoString → Exec (GoString × GoString)
  | [], st => .ret st
  | name :: rest, st =>
    match getNamesStep st name with
    | .ret st1 => getNamesLoop rest st1
    | .panic p => .panic p

/-- Go `GetFirstAndSurNames`: returns `(givenName, surname)`. -/
def GetFirstAndSurNames (cert : Certificate) : Exec (GoString × GoString) :=
  match getNamesLoop cert.Subject.Names ([], []) with
  | .ret (surname, givenName) => .ret (givenName, surname)
  | .panic p => .panic p

/-- The loop `for _, n := range list { if n == target { ... return nil } }`:
the first entry equal to `target`, if any. -/
def rangeMatch : List GoString → GoString → Option GoString
  | [], _ => none
  | n :: rest, target => if n = target then some n else rangeMatch rest target

/-- The condition `len(Country) == 1 && Country[0] == "ES"`. -/
def countryCheck (cert : Certificate) : Exec Bool :=
  if len cert.Subject.Country = 1 then
    match index cert.Subject.Country 0 with
    | .ret c => .ret (decide (c = go "ES"))
    | .panic p => .panic p
  else .ret false

/-- The condition `len(SerialNumber) == 15 && SerialNumber[:6] == "IDCES-"`. -/
def serialCheck (cert : Certificate) : Exec Bool :=
  if len cert.Subject.SerialNumber = 15 then
    match sliceTo cert.Subject.SerialNumber 6 with
    | .ret p => .ret (decide (p = go "IDCES-"))
    | .panic p => .panic p
  else .ret false

/-- The three allow-list loops and the final error of `VerifyClientCertificate`. -/
def matchLists (f : FNMTClientAuth) (logger : Logger) (name dni commonName : GoString) :
    GoError × Logger :=
  match rangeMatch f.Names name with
  | some _ =>
    (none, logger.Info (go "client fnmt certificate full name matched") (go "name") name)
  | none =>
    match rangeMatch f.Dnis dni with
    | some _ =>
      (none, logger.Info (go "client fnmt certificate dni matched") (go "dni") dni)
    | none =>
      match rangeMatch f.NameDnis commonName with
      | some namedni =>
        (none, logger.Info (go "client fnmt certificate full name and dni matched")
          (go "nameDni") namedni)
      | none => (some (go "client fnmt certificate failed validation"), logger)

/-- Go `FNMTClientAuth.VerifyClientCertificate`.  The second Go argument (the verified
chains) is unnamed and unused; `logger` is the state of `f.logger` before the call and
the second component of the result is its state after the call. -/
def VerifyClientCertificate (parse : Decoder) (f : FNMTClientAuth) (logger : Logger)
    (rawCerts : List (List Byte)) (_chains : List (List Certificate)) :
    Exec (GoError × Logger) :=
  if len rawCerts = 0 then
    .ret (some (go "no client certificate provided"), logger)
  else
    match index rawCerts 0 with
    | .panic p => .panic p
    | .ret raw =>
      match parse raw with
      | .error e => .ret (some (go "error parsing the given certificate: " ++ e), logger)
      | .ok remoteFNMTCert =>
        match countryCheck remoteFNMTCert with
        | .panic p => .panic p
        | .ret false =>
          .ret (some (go "client fnmt certificate country failed validation"), logger)
        | .ret true =>
          match serialCheck remoteFNMTCert with
          | .panic p => .panic p
          | .ret false =>
            .ret (some (go "client fnmt certificate serial number failed validation"), logger)
          | .ret true =>
            match sliceFrom remoteFNMTCert.Subject.SerialNumber 6 with
            | .panic p => .panic p
            | .ret dni =>
              let commonName := remoteFNMTCert.Subject.CommonName
              match GetFirstAndSurNames remoteFNMTCert with
              | .panic p => .panic p
              | .ret (givenName, surname) =>
                let name := givenName ++ go " " ++ surname
                .ret (matchLists f logger name dni commonName)

/-! ## Configuration loading (`caddyfile.Dispenser`)

The dispenser belongs to the host framework.  It is modelled on the input that the
directive `fnmt { ... }` gives it: the directive name on the first line, then a block
whose lines each hold a sub-directive name followed by its arguments.  The braces that
open and close the block are implicit in the model: the block opens after the tokens of
the directive line and closes after the last pending line. -/

/-- One line of the block: a sub-directive name and its arguments. -/
structure Line where
  name : GoString
  args : List GoString
deriving DecidableEq, Repr

/-- State of a `caddyfile.Dispenser`: the token under the cursor (empty before the
first token), the tokens that follow it on the same line, the lines of the block that
the cursor has not reached, and the nesting level. -/
structure Dispenser where
  val : GoString
  line : List GoString
  pending : List Line
  nesting : Nat
deriving DecidableEq, Repr

/-- Error values built by the dispenser.  Their text also carries the file and line of
the cursor, which the model does not track: `argErr v` is `d.ArgErr()` raised with the
cursor on token `v`, `errf m` is `d.Errf(...)` with formatted message `m`. -/
inductive ConfigError where
  | argErr (v : GoString)
  | errf (m : GoString)
deriving DecidableEq, Repr

/-- Dispenser positioned before the directive `directive { block }`. -/
def Dispenser.ofBlock (directive : GoString) (block : List Line) : Dispenser :=
  { val := [], line := [directive], pending := block, nesting := 0 }

/-- Go `d.Val()`. -/
def Dispenser.Val (d : Dispenser) : GoString := d.val

/-- Go `d.Nesting()`. -/
def Dispenser.Nesting (d : Dispenser) : Nat := d.nesting

/-- Go `d.Next()`: moves the cursor to the next token, on this line or on the next one;
false when the cursor is on the last token before the end of the block. -/
def Dispenser.Next (d : Dispenser) : Bool × Dispenser :=
  match d.line with
  | a :: rest => (true, { d with val := a, line := rest })
  | [] =>
    match d.pending with
    | l :: ls => (true, { d with val := l.name, line := l.args, pending := ls })
    | [] => (false, d)

/-- Go `d.NextBlock(initialNestingLevel)`.  Outside the block it enters it when the
block opens right after the cursor and is not empty; inside the block it moves to the
next token and leaves the block when there is none. -/
def Dispenser.NextBlock (d : Dispenser) (initialNestingLevel : Nat) : Bool × Dispenser :=
  if d.nesting > initialNestingLevel then
    match d.Next with
    | (true, d1) => (true, d1)
    | (false, d1) => (false, { d1 with nesting := d1.nesting - 1 })
  else
    match d.line, d.pending with
    | [], l :: ls =>
      (true, { val := l.name, line := l.args, pending := ls, nesting := d.nesting + 1 })
    | _, _ => (false, d)

/-- Go `d.CountRemainingArgs()`: number of tokens left on the line; the cursor is
restored. -/
def Dispenser.CountRemainingArgs (d : Dispenser) : Nat := d.line.length

/-- Go `d.RemainingArgs()`: the tokens left on the line; the cursor ends on the last
of them. -/
def Dispenser.RemainingArgs (d : Dispenser) : List GoString × Dispenser :=
  (d.line, { d with val := (d.line.getLast?).getD d.val, line := [] })

/-- Go `d.ArgErr()`. -/
def Dispenser.ArgErr (d : Dispenser) : ConfigError := .argErr d.Val

/-- Go `d.Errf(format, args...)`, given the formatted message. -/
def Dispenser.Errf (_d : Dispenser) (m : GoString) : ConfigError := .errf m

/-- Number of tokens after the cursor. -/
def Dispenser.remaining (d : Dispenser) : Nat :=
  d.line.length + (d.pending.map (fun l => 1 + l.args.length)).sum

/-- The loop `for nesting := d.Nesting(); d.NextBlock(nesting); { switch d.Val() ... }`
of `UnmarshalCaddyfile`, run for at most `fuel` iterations; `none` when the fuel runs
out.  The result is the returned error and the verifier as the loop left it. -/
def unmarshalLoop : Nat → Nat → FNMTClientAuth → Dispenser →
    Option (Option ConfigError × FNMTClientAuth)
  | 0, _, _, _ => none
  | fuel + 1, nesting, f, d =>
    match d.NextBlock nesting with
    | (false, _) => some (none, f)
    | (true, d1) =>
      if d1.Val = go "names" then
        if d1.CountRemainingArgs = 0 then some (some d1.ArgErr, f)
        else
          let r := d1.RemainingArgs
          let f1 := { f with Names := r.1 }
          if len f1.Names = 0 then some (some r.2.ArgErr, f1)
          else unmarshalLoop fuel nesting f1 r.2
      else if d1.Val = go "dnis" then
        if d1.CountRemainingArgs = 0 then some (some d1.ArgErr, f)
        else
          let r := d1.RemainingArgs
          let f1 := { f with Dnis := r.1 }
          if len f1.Dnis = 0 then some (some r.2.ArgErr, f1)
          else unmarshalLoop fuel nesting f1 r.2
      else if d1.Val = go "namednis" then
        if d1.CountRemainingArgs = 0 then some (some d1.ArgErr, f)
        else
          let r := d1.RemainingArgs
          let f1 := { f with Dnis := r.1 }
          if len f1.Dnis = 0 then some (some r.2.ArgErr, f1)
          else unmarshalLoop fuel nesting f1 r.2
      else
        some (some (d1.Errf (go "unknown subdirective \x27" ++ d1.Val ++ go "\x27")), f)

/-- Go `(*FNMTClientAuth).UnmarshalCaddyfile`: the returned error and the verifier
after the call.  The loop gets one unit of fuel per token after the cursor, plus one. -/
def UnmarshalCaddyfile (f : FNMTClientAuth) (d : Dispenser) :
    Option (Option ConfigError × FNMTClientAuth) :=
  let d0 := d.Next.2
  unmarshalLoop (d0.remaining + 1) d0.Nesting f d0

/-- Closed form of `unmarshalLoop` on the lines of a block, used to reason about it:
the lines are processed in order, the first faulty one ends the load. -/
def applyBlock : List Line → FNMTClientAuth → Option ConfigError × FNMTClientAuth
  | [], f => (none, f)
  | l :: ls, f =>
    if l.name = go "names" then
      if l.args = [] then (some (.argErr l.name), f)
      else applyBlock ls { f with Names := l.args }
    else if l.name = go "dnis" then
      if l.args = [] then (some (.argErr l.name), f)
      else applyBlock ls { f with Dnis := l.args }
    else if l.name = go "namednis" then
      if l.args = [] then (some (.argErr l.name), f)
      else applyBlock ls { f with Dnis := l.args }
    else (some (.errf (go "unknown subdirective \x27" ++ l.name ++ go "\x27")), f)

/-- The sub-directive names that `UnmarshalCaddyfile` recognises. -/
def KnownSubdirective (name : GoString) : Prop :=
  name = go "names" ∨ name = go "dnis" ∨ name = go "namednis"

instance (name : GoString) : Decidable (KnownSubdirective name) := by
  unfold KnownSubdirective
  infer_instance

/-- A well-formed line: a recognised sub-directive with at least one argument. -/
def Line.WellFormed (l : Line) : Prop :=
  KnownSubdirective l.name ∧ l.args ≠ []

instance (l : Line) : Decidable l.WellFormed := by
  unfold Line.WellFormed
  infer_instance

/-! ## Reading aids for the claims -/

/-- Number read off a sequence of decimal digit bytes, most significant first. -/
def digitsValue (bs : GoString) : Nat := bs.foldl (fun acc b => 10 * acc + (b.val - 48)) 0

/-- Strings joined by dots, the shape of `ObjectIdentifier.String`. -/
def dotted : List GoString → GoString
  | [] => []
  | [c] => c
  | c :: d :: rest => c ++ go "." ++ dotted (d :: rest)

/-- The string held by an attribute value; empty when the value is not a string. -/
def AnyValue.text : AnyValue → GoString
  | .str s => s
  | .other => []

/-- The spec's reading of a subject field: the value of the last attribute of type `oid`
among `names`, or the empty string when there is none. -/
def lastValueOfType (oid : ObjectIdentifier) (names : List AttributeTypeAndValue) :
    GoString :=
  (((names.filter (fun a => decide (a.Type_ = oid))).getLast?).map
    (fun a => a.Value.text)).getD []

/-- Number of characters of UTF-8 text: every byte starts one, except the continuation
bytes `0x80` to `0xBF` of a multi-byte character. -/
def characterCount (s : GoString) : Nat :=
  (s.filter (fun b => decide (b.val < 0x80 ∨ 0xC0 ≤ b.val))).length

/-- Arguments of the last line of `block` that satisfies `p`, or `d` when there is
none. -/
def lastArgs (p : Line → Bool) (d : List GoString) (block : List Line) : List GoString :=
  (((block.filter p).getLast?).map (fun l => l.args)).getD d

/-! ## Example data -/

/-- Subject of the certificate used as running example: country ES, serial number
IDCES-123456789, given name Juan, surname Pérez García. -/
def juanCert : Certificate :=
  { Subject :=
    { Country := [go "ES"]
      SerialNumber := go "IDCES-123456789"
      CommonName := go "Juan Pérez García - 123456789"
      Names :=
        [ { Type_ := [2, 5, 4, 6], Value := .str (go "ES") },
          { Type_ := [2, 5, 4, 5], Value := .str (go "IDCES-123456789") },
          { Type_ := [2, 5, 4, 4], Value := .str (go "Pérez García") },
          { Type_ := [2, 5, 4, 42], Value := .str (go "Juan") },
          { Type_ := [2, 5, 4, 3], Value := .str (go "Juan Pérez García - 123456789") } ] } }

/-- The running example with given name and surname in lower case. -/
def lowerCaseCert : Certificate :=
  { Subject :=
    { Country := [go "ES"]
      SerialNumber := go "IDCES-123456789"
      CommonName := go "juan pérez garcía - 123456789"
      Names :=
        [ { Type_ := [2, 5, 4, 4], Value := .str (go "pérez garcía") },
          { Type_ := [2, 5, 4, 42], Value := .str (go "juan") } ] } }

/-- The running example issued for another country. -/
def foreignCert : Certificate :=
  { juanCert with Subject := { juanCert.Subject with Country := [go "PT"] } }

/-- The running example with a serial number that lacks the prefix. -/
def badSerialCert : Certificate :=
  { juanCert with Subject := { juanCert.Subject with SerialNumber := go "123456789" } }

/-- A decoder that maps four one-byte encodings to the example certificates and
rejects everything else. -/
def exampleDecoder : Decoder := fun raw =>
  if raw = [1] then .ok juanCert
  else if raw = [2] then .ok lowerCaseCert
  else if raw = [3] then .ok foreignCert
  else if raw = [4] then .ok badSerialCert
  else .error (go "x509: malformed certificate")

/-- A verifier whose three lists all hold the identity of the running example. -/
def allListsVerifier : FNMTClientAuth :=
  { Names := [go "Juan Pérez García"]
    Dnis := [go "123456789"]
    NameDnis := [go "Juan Pérez García - 123456789"] }

/-- A verifier with no entry in any list. -/
def emptyVerifier : FNMTClientAuth := { Names := [], Dnis := [], NameDnis := [] }

/-- A certificate with the expected profile and nothing else: no given name, no
surname, empty common name. -/
def anonymousCert : Certificate :=
  { Subject :=
    { Country := [go "ES"]
      SerialNumber := go "IDCES-123456789"
      CommonName := []
      Names := [] } }

/-- A certificate whose surname attribute holds a value that is not a string. -/
def nonStringCert : Certificate :=
  { Subject :=
    { Country := [go "ES"]
      SerialNumber := go "IDCES-123456789"
      CommonName := go "Juan Pérez García - 123456789"
      Names :=
        [ { Type_ := [2, 5, 4, 42], Value := .str (go "Juan") },
          { Type_ := [2, 5, 4, 4], Value := .other } ] } }

/-- The running example with a serial number of 15 bytes that holds a two-byte
character: "IDCES-" followed by "ñ1234567". -/
def multiByteCert : Certificate :=
  { juanCert with Subject := { juanCert.Subject with SerialNumber := go "IDCES-ñ1234567" } }

/-- The running example issued for another country and with a serial number too short
to hold the prefix. -/
def doublyBadCert : Certificate :=
  { juanCert with
    Subject := { juanCert.Subject with Country := [go "PT"], SerialNumber := go "IDC" } }

/-- A certificate with two given-name and two surname attributes, and a common-name
attribute between them. -/
def repeatedNamesCert : Certificate :=
  { Subject :=
    { Country := [go "ES"]
      SerialNumber := go "IDCES-123456789"
      CommonName := go "Juana García - 123456789"
      Names :=
        [ { Type_ := [2, 5, 4, 42], Value := .str (go "Juan") },
          { Type_ := [2, 5, 4, 4], Value := .str (go "Pérez") },
          { Type_ := [2, 5, 4, 3], Value := .str (go "Juana García - 123456789") },
          { Type_ := [2, 5, 4, 42], Value := .str (go "Juana") },
          { Type_ := [2, 5, 4, 4], Value := .str (go "García") } ] } }

/-- A decoder for the edge cases: the anonymous certificate, the doubly malformed one
and the one with a two-byte character in its serial number. -/
def edgeDecoder : Decoder := fun raw =>
  if raw = [1] then .ok anonymousCert
  else if raw = [2] then .ok doublyBadCert
  else if raw = [3] then .ok multiByteCert
  else .error (go "x509: malformed certificate")

/-! ## Auxiliary facts about object identifiers -/

theorem toDigitsCore_digits (fuel : Nat) :
    ∀ (n : Nat) (ds : List Char), n < fuel →
      ∃ pre : List Nat, (∀ d ∈ pre, d < 10) ∧ pre ≠ [] ∧
        Nat.toDigitsCore 10 fuel n ds = pre.map Nat.digitChar ++ ds ∧
        pre.foldl (fun a d => 10 * a + d) 0 = n := by
  induction fuel with
  | zero =>
    intro n ds h
    omega
  | succ k ih =>
    intro n ds h
    rw [Nat.toDigitsCore.eq_2]
    by_cases h0 : n / 10 = 0
    · rw [if_pos h0]
      refine ⟨[n % 10], ?_, by simp, by simp, ?_⟩
      · intro d hd
        simp only [List.mem_singleton] at hd
        omega
      · simp only [List.foldl_cons, List.foldl_nil]
        omega
    · rw [if_neg h0]
      have hk : n / 10 < k := by omega
      obtain ⟨pre, hlt, _, heq, hval⟩ := ih (n / 10) ((n % 10).digitChar :: ds) hk
      refine ⟨pre ++ [n % 10], ?_, by simp, ?_, ?_⟩
      · intro d hd
        rcases List.mem_append.mp hd with h1 | h1
        · exact hlt d h1
        · simp only [List.mem_singleton] at h1
          omega
      · rw [heq]
        simp
      · rw [List.foldl_append, hval]
        simp only [List.foldl_cons, List.foldl_nil]
        omega

theorem digit_byte (d : Nat) (h : d < 10) :
    (Fin.ofNat (Nat.digitChar d).toNat : Byte) = Fin.ofNat (48 + d) := by
  interval_cases d <;> rfl

theorem digitsValue_map (pre : List Nat) (h : ∀ d ∈ pre, d < 10) :
    ∀ acc : Nat,
      (pre.map (fun d => (Fin.ofNat (48 + d) : Byte))).foldl
          (fun acc b => 10 * acc + (b.val - 48)) acc =
        pre.foldl (fun a d => 10 * a + d) acc := by
  induction pre with
  | nil => intro acc; rfl
  | cons d rest ih =>
    intro acc
    have hd : d < 10 := h d (List.mem_cons_self _ _)
    have hv : ((Fin.ofNat (48 + d) : Byte)).val - 48 = d := by
      interval_cases d <;> rfl
    simp only [List.map_cons, List.foldl_cons, hv]
    exact ih (fun e he => h e (List.mem_cons_of_mem _ he)) _

/-- The decimal rendering is made of digits, is not empty, and reads back as the number. -/
theorem decimal_spec (n : Nat) :
    digitsValue (decimal n) = n ∧ decimal n ≠ [] ∧
      ∀ b ∈ decimal n, 48 ≤ b.val ∧ b.val ≤ 57 := by
  obtain ⟨pre, hlt, hne, heq, hval⟩ := toDigitsCore_digits (n + 1) n [] (by omega)
  have hdec : decimal n = pre.map (fun d => (Fin.ofNat (48 + d) : Byte)) := by
    unfold decimal Nat.toDigits
    rw [heq, List.append_nil, List.map_map]
    apply List.map_congr_left
    intro d hd
    exact digit_byte d (hlt d hd)
  refine ⟨?_, ?_, ?_⟩
  · rw [hdec]
    unfold digitsValue
    rw [digitsValue_map pre hlt 0, hval]
  · rw [hdec]
    intro h
    exact hne (List.map_eq_nil_iff.mp h)
  · rw [hdec]
    intro b hb
    obtain ⟨d, hd, rfl⟩ := List.mem_map.mp hb
    have := hlt d hd
    interval_cases d <;> decide

theorem formatInt_no_dot (v : Int) : (46 : Byte) ∉ formatInt v := by
  have hd : ∀ n : Nat, (46 : Byte) ∉ decimal n := by
    intro n h
    exact absurd ((decimal_spec n).2.2 46 h).1 (by decide)
  unfold formatInt
  split_ifs
  · intro h
    rcases List.mem_append.mp h with h1 | h1
    · revert h1
      decide
    · exact hd _ h1
  · exact hd _

/-- A rendering that does not start with a minus sign reads back as the number. -/
theorem formatInt_value (v : Int) (c : GoString) (h : formatInt v = c)
    (hc : c.head? ≠ some 45) : v = (digitsValue c : Int) := by
  unfold formatInt at h
  split_ifs at h with hneg
  · exfalso
    apply hc
    rw [← h]
    rfl
  · have h1 := (decimal_spec v.natAbs).1
    rw [h] at h1
    rw [h1]
    omega

theorem dotted_cons_cons (c d : GoString) (rest : List GoString) :
    dotted (c :: d :: rest) = c ++ (46 : Byte) :: dotted (d :: rest) := by
  rw [dotted]
  have : go "." = [(46 : Byte)] := by decide
  rw [this]
  simp

theorem append_sep_inj (sep : Byte) :
    ∀ (a b x y : GoString), sep ∉ a → sep ∉ b → a ++ sep :: x = b ++ sep :: y →
      a = b ∧ x = y := by
  intro a
  induction a with
  | nil =>
    intro b x y _ hb h
    cases b with
    | nil =>
      simp only [List.nil_append, List.cons.injEq, true_and] at h
      exact ⟨rfl, h⟩
    | cons b0 bs =>
      simp only [List.nil_append, List.cons_append, List.cons.injEq] at h
      exact absurd (by rw [h.1]; exact List.mem_cons_self _ _) hb
  | cons a0 as ih =>
    intro b x y ha hb h
    cases b with
    | nil =>
      simp only [List.nil_append, List.cons_append, List.cons.injEq] at h
      exact absurd (by rw [← h.1]; exact List.mem_cons_self _ _) ha
    | cons b0 bs =>
      simp only [List.cons_append, List.cons.injEq] at h
      obtain ⟨h1, h2⟩ := ih bs x y (fun k => ha (List.mem_cons_of_mem _ k))
        (fun k => hb (List.mem_cons_of_mem _ k)) h.2
      exact ⟨by rw [h.1, h1], h2⟩

theorem dotted_inj (xs : List GoString) :
    ∀ ys : List GoString, (∀ x ∈ xs, (46 : Byte) ∉ x) → (∀ y ∈ ys, (46 : Byte) ∉ y) →
      xs ≠ [] → ys ≠ [] → dotted xs = dotted ys → xs = ys := by
  induction xs with
  | nil => intro ys _ _ h; exact absurd rfl h
  | cons x xs ih =>
    intro ys hx hy _ hys h
    cases ys with
    | nil => exact absurd rfl hys
    | cons y ys =>
      have hx0 := hx x (List.mem_cons_self _ _)
      have hy0 := hy y (List.mem_cons_self _ _)
      cases xs with
      | nil =>
        cases ys with
        | nil =>
          simp only [dotted] at h
          rw [h]
        | cons y1 ys =>
          rw [dotted_cons_cons] at h
          simp only [dotted] at h
          exact absurd (by rw [h]; simp) hx0
      | cons x1 xs =>
        cases ys with
        | nil =>
          rw [dotted_cons_cons] at h
          simp only [dotted] at h
          exact absurd (by rw [← h]; simp) hy0
        | cons y1 ys =>
          rw [dotted_cons_cons, dotted_cons_cons] at h
          obtain ⟨h1, h2⟩ := append_sep_inj 46 x y _ _ hx0 hy0 h
          have := ih (y1 :: ys) (fun k hk => hx k (List.mem_cons_of_mem _ hk))
            (fun k hk => hy k (List.mem_cons_of_mem _ hk)) (by simp) (by simp) h2
          rw [h1, this]

theorem oid_string_eq_dotted (oid : ObjectIdentifier) :
    oid.String = dotted (oid.map formatInt) := by
  induction oid with
  | nil => rfl
  | cons v rest ih =>
    cases rest with
    | nil => rfl
    | cons w rest =>
      simp only [ObjectIdentifier.String, List.map_cons, dotted]
      rw [ih]
      simp only [List.map_cons]

/-- An identifier whose rendering is a dotted string has the components of that
string. -/
theorem oid_components (oid : ObjectIdentifier) (cs : List GoString)
    (hcs : ∀ c ∈ cs, (46 : Byte) ∉ c) (hne : cs ≠ []) (hd : dotted cs ≠ [])
    (h : oid.String = dotted cs) : oid.map formatInt = cs := by
  have hoid : oid ≠ [] := by
    rintro rfl
    exact hd h.symm
  rw [oid_string_eq_dotted] at h
  exact dotted_inj (oid.map formatInt) cs
    (by
      intro x hx
      obtain ⟨v, _, rfl⟩ := List.mem_map.mp hx
      exact formatInt_no_dot v)
    hcs (by simpa using hoid) hne h

theorem oid_of_four (oid : ObjectIdentifier) (c1 c2 c3 c4 : GoString)
    (h : oid.map formatInt = [c1, c2, c3, c4])
    (h1 : c1.head? ≠ some 45) (h2 : c2.head? ≠ some 45) (h3 : c3.head? ≠ some 45)
    (h4 : c4.head? ≠ some 45) :
    oid = [(digitsValue c1 : Int), (digitsValue c2 : Int), (digitsValue c3 : Int),
      (digitsValue c4 : Int)] := by
  have hlen : oid.length = 4 := by
    have := congrArg List.length h
    simpa using this
  rcases oid with _ | ⟨a, _ | ⟨b, _ | ⟨c, _ | ⟨d, _ | ⟨e, r⟩⟩⟩⟩⟩
  · simp at hlen
  · simp at hlen
  · simp at hlen
  · simp at hlen
  · simp only [List.map_cons, List.map_nil, List.cons.injEq, and_true] at h
    obtain ⟨ha, hb, hc, hd⟩ := h
    rw [formatInt_value a _ ha h1, formatInt_value b _ hb h2, formatInt_value c _ hc h3,
      formatInt_value d _ hd h4]
  · simp at hlen

/-- An identifier renders as "2.5.4.4" exactly when it is 2.5.4.4. -/
theorem oid_string_surname (oid : ObjectIdentifier) :
    oid.String = go "2.5.4.4" ↔ oid = [2, 5, 4, 4] := by
  constructor
  · intro h
    have ht : go "2.5.4.4" = dotted [go "2", go "5", go "4", go "4"] := by decide
    rw [ht] at h
    have hm := oid_components oid _ (by decide) (by simp) (by decide) h
    rw [oid_of_four oid _ _ _ _ hm (by decide) (by decide) (by decide) (by decide)]
    decide
  · rintro rfl
    decide

/-- An identifier renders as "2.5.4.42" exactly when it is 2.5.4.42. -/
theorem oid_string_givenName (oid : ObjectIdentifier) :
    oid.String = go "2.5.4.42" ↔ oid = [2, 5, 4, 42] := by
  constructor
  · intro h
    have ht : go "2.5.4.42" = dotted [go "2", go "5", go "4", go "42"] := by decide
    rw [ht] at h
    have hm := oid_components oid _ (by decide) (by simp) (by decide) h
    rw [oid_of_four oid _ _ _ _ hm (by decide) (by decide) (by decide) (by decide)]
    decide
  · rintro rfl
    decide

/-! ## Auxiliary facts about the verifier -/

theorem rangeMatch_of_mem (xs : List GoString) (t : GoString) (h : t ∈ xs) :
    rangeMatch xs t = some t := by
  induction xs with
  | nil => cases h
  | cons n rest ih =>
    by_cases hn : n = t
    · simp [rangeMatch, hn]
    · have hrest : t ∈ rest := by
        rcases List.mem_cons.mp h with h1 | h1
        · exact absurd h1.symm hn
        · exact h1
      simp [rangeMatch, hn, ih hrest]

theorem rangeMatch_of_not_mem (xs : List GoString) (t : GoString) (h : t ∉ xs) :
    rangeMatch xs t = none := by
  induction xs with
  | nil => rfl
  | cons n rest ih =>
    have hn : n ≠ t := fun e => h (by simp [e])
    have hrest : t ∉ rest := fun e => h (List.mem_cons_of_mem _ e)
    simp [rangeMatch, hn, ih hrest]

/-- The three loops as a case distinction on list membership. -/
theorem matchLists_eq (f : FNMTClientAuth) (logger : Logger) (name dni commonName : GoString) :
    matchLists f logger name dni commonName =
      if name ∈ f.Names then
        (none, logger.Info (go "client fnmt certificate full name matched") (go "name") name)
      else if dni ∈ f.Dnis then
        (none, logger.Info (go "client fnmt certificate dni matched") (go "dni") dni)
      else if commonName ∈ f.NameDnis then
        (none, logger.Info (go "client fnmt certificate full name and dni matched")
          (go "nameDni") commonName)
      else (some (go "client fnmt certificate failed validation"), logger) := by
  unfold matchLists
  by_cases h1 : name ∈ f.Names
  · simp [rangeMatch_of_mem _ _ h1, h1]
  · by_cases h2 : dni ∈ f.Dnis
    · simp [rangeMatch_of_not_mem _ _ h1, rangeMatch_of_mem _ _ h2, h1, h2]
    · by_cases h3 : commonName ∈ f.NameDnis
      · simp [rangeMatch_of_not_mem _ _ h1, rangeMatch_of_not_mem _ _ h2,
          rangeMatch_of_mem _ _ h3, h1, h2, h3]
      · simp [rangeMatch_of_not_mem _ _ h1, rangeMatch_of_not_mem _ _ h2,
          rangeMatch_of_not_mem _ _ h3, h1, h2, h3]

theorem countryCheck_eq (cert : Certificate) :
    countryCheck cert = .ret (decide (cert.Subject.Country = [go "ES"])) := by
  unfold countryCheck len index
  rcases hc : cert.Subject.Country with _ | ⟨c, _ | ⟨c2, rest⟩⟩
  · simp
  · simp
  · simp

theorem serialCheck_eq (cert : Certificate) :
    serialCheck cert = .ret (decide (len cert.Subject.SerialNumber = 15 ∧
      go "IDCES-" <+: cert.Subject.SerialNumber)) := by
  unfold serialCheck sliceTo
  by_cases hl : len cert.Subject.SerialNumber = 15
  · have h6 : 6 ≤ len cert.Subject.SerialNumber := by omega
    have hgo : (go "IDCES-").length = 6 := by decide
    have hpre : (List.take 6 cert.Subject.SerialNumber = go "IDCES-") ↔
        (go "IDCES-" <+: cert.Subject.SerialNumber) := by
      rw [List.prefix_iff_eq_take, hgo]
      exact eq_comm
    simp only [hl, h6, if_true, true_and]
    by_cases hp : go "IDCES-" <+: cert.Subject.SerialNumber
    · simp [hp, hpre.mpr hp]
    · have : ¬ List.take 6 cert.Subject.SerialNumber = go "IDCES-" := fun e => hp (hpre.mp e)
      simp [hp, this]
  · simp [hl]

/-- What a call does once its leaf certificate has decoded. -/
theorem verify_decoded (parse : Decoder) (f : FNMTClientAuth) (logger : Logger)
    (raw : List Byte) (rest : List (List Byte)) (chains : List (List Certificate))
    (cert : Certificate) (hparse : parse raw = .ok cert) :
    VerifyClientCertificate parse f logger (raw :: rest) chains =
      if cert.Subject.Country = [go "ES"] then
        if len cert.Subject.SerialNumber = 15 ∧ go "IDCES-" <+: cert.Subject.SerialNumber then
          match GetFirstAndSurNames cert with
          | .panic p => .panic p
          | .ret (givenName, surname) =>
            .ret (matchLists f logger (givenName ++ go " " ++ surname)
              (cert.Subject.SerialNumber.drop 6) cert.Subject.CommonName)
        else .ret (some (go "client fnmt certificate serial number failed validation"), logger)
      else .ret (some (go "client fnmt certificate country failed validation"), logger) := by
  have h0 : len (raw :: rest) ≠ 0 := by simp [len]
  have hi : index (raw :: rest) 0 = .ret raw := rfl
  simp only [VerifyClientCertificate, h0, if_false, hi, hparse, countryCheck_eq,
    serialCheck_eq]
  by_cases hc : cert.Subject.Country = [go "ES"]
  · simp only [hc, decide_True, if_true]
    by_cases hs : len cert.Subject.SerialNumber = 15 ∧
        go "IDCES-" <+: cert.Subject.SerialNumber
    · have h6 : 6 ≤ len cert.Subject.SerialNumber := by omega
      have hsl : sliceFrom cert.Subject.SerialNumber 6 =
          .ret (cert.Subject.SerialNumber.drop 6) := by
        unfold sliceFrom
        rw [if_pos h6]
      simp only [hs, and_self, decide_True, if_true, hsl]
    · simp only [hs, decide_False, if_false]
  · simp only [hc, decide_False, if_false]

/-- A call whose leaf certificate decodes, passes both profile checks and has string
given name and surname runs the three allow-list loops. -/
theorem verify_reaches_matcher (parse : Decoder) (f : FNMTClientAuth) (logger : Logger)
    (raw : List Byte) (rest : List (List Byte)) (chains : List (List Certificate))
    (cert : Certificate) (givenName surname : GoString)
    (hparse : parse raw = .ok cert)
    (hcountry : cert.Subject.Country = [go "ES"])
    (hlen : len cert.Subject.SerialNumber = 15)
    (hpre : go "IDCES-" <+: cert.Subject.SerialNumber)
    (hnames : GetFirstAndSurNames cert = .ret (givenName, surname)) :
    VerifyClientCertificate parse f logger (raw :: rest) chains =
      .ret (matchLists f logger (givenName ++ go " " ++ surname)
        (cert.Subject.SerialNumber.drop 6) cert.Subject.CommonName) := by
  have h6 : 6 ≤ len cert.Subject.SerialNumber := by omega
  simp [VerifyClientCertificate, len, index, hparse, countryCheck_eq, serialCheck_eq,
    hcountry, hpre, hnames, sliceFrom]
  simp [len] at hlen h6
  simp [hlen]

/-- A call without raw certificates. -/
theorem verify_nil (parse : Decoder) (f : FNMTClientAuth) (logger : Logger)
    (chains : List (List Certificate)) :
    VerifyClientCertificate parse f logger [] chains =
      .ret (some (go "no client certificate provided"), logger) := by
  simp [VerifyClientCertificate, len]

/-- A call whose leaf certificate does not decode. -/
theorem verify_undecoded (parse : Decoder) (f : FNMTClientAuth) (logger : Logger)
    (raw : List Byte) (rest : List (List Byte)) (chains : List (List Certificate))
    (e : GoString) (hparse : parse raw = .error e) :
    VerifyClientCertificate parse f logger (raw :: rest) chains =
      .ret (some (go "error parsing the given certificate: " ++ e), logger) := by
  have h0 : len (raw :: rest) ≠ 0 := by simp [len]
  have hi : index (raw :: rest) 0 = .ret raw := rfl
  simp only [VerifyClientCertificate, h0, if_false, hi, hparse]

theorem getNamesStep_panic (st : GoString × GoString) (name : AttributeTypeAndValue)
    (p : Panic) (h : getNamesStep st name = .panic p) : p = .interfaceConversion := by
  unfold getNamesStep at h
  cases hv : name.Value with
  | str s =>
    simp only [hv, AnyValue.assertString] at h
    split_ifs at h
  | other =>
    simp only [hv, AnyValue.assertString] at h
    split_ifs at h <;> cases h <;> rfl

theorem getNamesLoop_panic (names : List AttributeTypeAndValue) :
    ∀ (st : GoString × GoString) (p : Panic),
      getNamesLoop names st = .panic p → p = .interfaceConversion := by
  induction names with
  | nil =>
    intro st p h
    cases h
  | cons name rest ih =>
    intro st p h
    rw [getNamesLoop] at h
    cases hstep : getNamesStep st name with
    | ret st1 =>
      rw [hstep] at h
      exact ih st1 p h
    | panic q =>
      rw [hstep] at h
      cases h
      exact getNamesStep_panic st name _ hstep

/-- The only panic of the extractor is the failed type assertion. -/
theorem GetFirstAndSurNames_panic (cert : Certificate) (p : Panic)
    (h : GetFirstAndSurNames cert = .panic p) : p = .interfaceConversion := by
  unfold GetFirstAndSurNames at h
  cases hl : getNamesLoop cert.Subject.Names ([], []) with
  | ret st =>
    rw [hl] at h
    cases h
  | panic q =>
    rw [hl] at h
    cases h
    exact getNamesLoop_panic _ _ _ hl

/-- The allow-list loops only append to the log. -/
theorem matchLists_frame (f : FNMTClientAuth) (logger : Logger)
    (name dni commonName : GoString) :
    matchLists f logger name dni commonName =
      ((matchLists f [] name dni commonName).1,
        logger ++ (matchLists f [] name dni commonName).2) := by
  rw [matchLists_eq, matchLists_eq]
  split_ifs <;> simp [Logger.Info]

/-- A call is determined by the decoder, the lists and the first raw certificate: it
returns the error, and appends the records, of the call made with an empty log, that
certificate alone and no chains. -/
theorem verify_frame (parse : Decoder) (f : FNMTClientAuth) (logger : Logger)
    (rawCerts : List (List Byte)) (chains : List (List Certificate)) :
    VerifyClientCertificate parse f logger rawCerts chains =
      match VerifyClientCertificate parse f [] rawCerts.head?.toList [] with
      | .ret (err, added) => .ret (err, logger ++ added)
      | .panic p => .panic p := by
  cases rawCerts with
  | nil => simp [verify_nil]
  | cons raw rest =>
    simp only [List.head?_cons, Option.toList]
    cases hparse : parse raw with
    | error e =>
      rw [verify_undecoded parse f logger raw rest chains e hparse,
        verify_undecoded parse f [] raw [] [] e hparse]
      simp
    | ok cert =>
      rw [verify_decoded parse f logger raw rest chains cert hparse,
        verify_decoded parse f [] raw [] [] cert hparse]
      by_cases hc : cert.Subject.Country = [go "ES"]
      · by_cases hs : len cert.Subject.SerialNumber = 15 ∧
            go "IDCES-" <+: cert.Subject.SerialNumber
        · rw [if_pos hc, if_pos hs, if_pos hc, if_pos hs]
          cases hn : GetFirstAndSurNames cert with
          | ret gs =>
            obtain ⟨g, sn⟩ := gs
            simp only []
            rw [matchLists_frame]
          | panic p => simp only []
        · rw [if_pos hc, if_neg hs, if_pos hc, if_neg hs]
          simp
      · rw [if_neg hc, if_neg hc]
        simp

/-- The last element that satisfies `p`, read through `g`, with the head taken into
the default. -/
theorem lastOr_cons {α β : Type} (p : α → Bool) (g : α → β) (a : α) (l : List α) (d : β) :
    ((((a :: l).filter p).getLast?).map g).getD d =
      (((l.filter p).getLast?).map g).getD (if p a = true then g a else d) := by
  by_cases hp : p a = true
  · rw [List.filter_cons, if_pos hp, if_pos hp, List.getLast?_cons]
    cases (l.filter p).getLast? <;> rfl
  · rw [List.filter_cons, if_neg hp, if_neg hp]

/-- The loop body on an attribute whose value is a string. -/
theorem getNamesStep_string (st : GoString × GoString) (a : AttributeTypeAndValue)
    (v : GoString) (ha : a.Value = .str v) :
    getNamesStep st a =
      .ret (if a.Type_ = [2, 5, 4, 4] then v else st.1,
        if a.Type_ = [2, 5, 4, 42] then v else st.2) := by
  unfold getNamesStep
  simp only [oid_string_surname, oid_string_givenName, ha, AnyValue.assertString]
  by_cases h1 : a.Type_ = [2, 5, 4, 4]
  · have h2 : a.Type_ ≠ [2, 5, 4, 42] := by
      rw [h1]
      decide
    simp only [if_pos h1, if_neg h2]
  · by_cases h2 : a.Type_ = [2, 5, 4, 42]
    · simp only [if_neg h1, if_pos h2]
    · simp only [if_neg h1, if_neg h2]

/-- The loop on attributes whose values are all strings. -/
theorem getNamesLoop_strings (names : List AttributeTypeAndValue) :
    ∀ st : GoString × GoString, (∀ a ∈ names, ∃ v, a.Value = .str v) →
      getNamesLoop names st =
        .ret
          ((((names.filter (fun a => decide (a.Type_ = [2, 5, 4, 4]))).getLast?).map
              (fun a => a.Value.text)).getD st.1,
            (((names.filter (fun a => decide (a.Type_ = [2, 5, 4, 42]))).getLast?).map
              (fun a => a.Value.text)).getD st.2) := by
  induction names with
  | nil =>
    intro st _
    rfl
  | cons a rest ih =>
    intro st hstr
    obtain ⟨v, hv⟩ := hstr a (List.mem_cons_self _ _)
    rw [getNamesLoop, getNamesStep_string st a v hv]
    simp only []
    rw [ih _ (fun b hb => hstr b (List.mem_cons_of_mem _ hb)), lastOr_cons, lastOr_cons]
    simp only [decide_eq_true_eq, hv, AnyValue.text]

/-- On attributes whose values are all strings the extractor returns the last given
name and the last surname. -/
theorem GetFirstAndSurNames_strings (cert : Certificate)
    (hstr : ∀ a ∈ cert.Subject.Names, ∃ v, a.Value = .str v) :
    GetFirstAndSurNames cert =
      .ret (lastValueOfType [2, 5, 4, 42] cert.Subject.Names,
        lastValueOfType [2, 5, 4, 4] cert.Subject.Names) := by
  unfold GetFirstAndSurNames
  rw [getNamesLoop_strings cert.Subject.Names ([], []) hstr]
  rfl

/-- Attributes of another type than `oid` do not change the value read for `oid`. -/
theorem lastValueOfType_filter (oid : ObjectIdentifier) (q : AttributeTypeAndValue → Bool)
    (names : List AttributeTypeAndValue)
    (hq : ∀ a, a.Type_ = oid → q a = true) :
    lastValueOfType oid (names.filter q) = lastValueOfType oid names := by
  unfold lastValueOfType
  rw [List.filter_filter]
  congr 3
  apply List.filter_congr
  intro a _
  by_cases h : a.Type_ = oid
  · simp [h, hq a h]
  · simp [h]

/-! ## Auxiliary facts about configuration loading -/

theorem nextBlock_inside (v : GoString) (l : Line) (ls : List Line) (n : Nat) :
    Dispenser.NextBlock { val := v, line := [], pending := l :: ls, nesting := n + 1 } n =
      (true, { val := l.name, line := l.args, pending := ls, nesting := n + 1 }) := by
  simp [Dispenser.NextBlock, Dispenser.Next]

theorem nextBlock_open (v : GoString) (l : Line) (ls : List Line) (n : Nat) :
    Dispenser.NextBlock { val := v, line := [], pending := l :: ls, nesting := n } n =
      (true, { val := l.name, line := l.args, pending := ls, nesting := n + 1 }) := by
  simp [Dispenser.NextBlock]

theorem nextBlock_inside_end (v : GoString) (n : Nat) :
    (Dispenser.NextBlock { val := v, line := [], pending := [], nesting := n + 1 } n).1 =
      false := by
  simp [Dispenser.NextBlock, Dispenser.Next]

theorem nextBlock_open_end (v : GoString) (n : Nat) :
    (Dispenser.NextBlock { val := v, line := [], pending := [], nesting := n } n).1 =
      false := by
  simp [Dispenser.NextBlock]

/-- One iteration of the loop with the cursor at the end of a line inside the block. -/
theorem unmarshalLoop_cons (fuel n : Nat) (f : FNMTClientAuth) (v : GoString) (l : Line)
    (ls : List Line) :
    unmarshalLoop (fuel + 1) n f
        { val := v, line := [], pending := l :: ls, nesting := n + 1 } =
      if l.name = go "names" then
        if l.args = [] then some (some (.argErr l.name), f)
        else unmarshalLoop fuel n { f with Names := l.args }
          { val := (l.args.getLast?).getD l.name, line := [], pending := ls, nesting := n + 1 }
      else if l.name = go "dnis" then
        if l.args = [] then some (some (.argErr l.name), f)
        else unmarshalLoop fuel n { f with Dnis := l.args }
          { val := (l.args.getLast?).getD l.name, line := [], pending := ls, nesting := n + 1 }
      else if l.name = go "namednis" then
        if l.args = [] then some (some (.argErr l.name), f)
        else unmarshalLoop fuel n { f with Dnis := l.args }
          { val := (l.args.getLast?).getD l.name, line := [], pending := ls, nesting := n + 1 }
      else some (some (.errf (go "unknown subdirective \x27" ++ l.name ++ go "\x27")), f) := by
  rw [unmarshalLoop, nextBlock_inside]
  simp only [Dispenser.Val, Dispenser.CountRemainingArgs, Dispenser.RemainingArgs,
    Dispenser.ArgErr, Dispenser.Errf, len, List.length_eq_zero]
  by_cases ha : l.args = []
  · simp only [ha, if_true]
  · simp only [ha, if_false]

/-- With the cursor at the end of a line inside the block and more fuel than pending
lines, the loop returns what `applyBlock` computes. -/
theorem unmarshalLoop_inside (ls : List Line) :
    ∀ (fuel n : Nat) (f : FNMTClientAuth) (v : GoString), ls.length < fuel →
      unmarshalLoop fuel n f { val := v, line := [], pending := ls, nesting := n + 1 } =
        some (applyBlock ls f) := by
  induction ls with
  | nil =>
    intro fuel n f v hfuel
    obtain ⟨k, rfl⟩ : ∃ k, fuel = k + 1 := ⟨fuel - 1, by simp at hfuel; omega⟩
    rw [unmarshalLoop]
    have h := nextBlock_inside_end v n
    rcases hnb : Dispenser.NextBlock
      { val := v, line := [], pending := [], nesting := n + 1 } n with ⟨b, d1⟩
    rw [hnb] at h
    simp only at h
    subst h
    rfl
  | cons l ls ih =>
    intro fuel n f v hfuel
    obtain ⟨k, rfl⟩ : ∃ k, fuel = k + 1 := ⟨fuel - 1, by simp at hfuel; omega⟩
    have hk : ls.length < k := by simpa using hfuel
    rw [unmarshalLoop_cons, applyBlock]
    simp only [ih k n _ _ hk]
    split_ifs <;> rfl

/-- Entering the block gives the same run as continuing inside it. -/
theorem unmarshalLoop_open (fuel n : Nat) (f : FNMTClientAuth) (v : GoString)
    (ls : List Line) :
    unmarshalLoop fuel n f { val := v, line := [], pending := ls, nesting := n } =
      unmarshalLoop fuel n f { val := v, line := [], pending := ls, nesting := n + 1 } := by
  cases fuel with
  | zero => rfl
  | succ k =>
    cases ls with
    | nil =>
      rw [unmarshalLoop, unmarshalLoop]
      have h1 := nextBlock_open_end v n
      have h2 := nextBlock_inside_end v n
      rcases hnb1 : Dispenser.NextBlock
        { val := v, line := [], pending := [], nesting := n } n with ⟨b1, d1⟩
      rcases hnb2 : Dispenser.NextBlock
        { val := v, line := [], pending := [], nesting := n + 1 } n with ⟨b2, d2⟩
      rw [hnb1] at h1
      rw [hnb2] at h2
      simp only at h1 h2
      subst h1
      subst h2
      rfl
    | cons l ls =>
      rw [unmarshalLoop, unmarshalLoop, nextBlock_open, nextBlock_inside]

theorem length_le_tokens (block : List Line) :
    block.length ≤ (block.map (fun l => 1 + l.args.length)).sum := by
  induction block with
  | nil => simp
  | cons l ls ih => simp only [List.length_cons, List.map_cons, List.sum_cons]; omega

/-- Loading `directive { block }` always returns, with the result of `applyBlock`. -/
theorem unmarshal_eq_applyBlock (f : FNMTClientAuth) (directive : GoString)
    (block : List Line) :
    UnmarshalCaddyfile f (Dispenser.ofBlock directive block) = some (applyBlock block f) := by
  have hlen := length_le_tokens block
  simp only [UnmarshalCaddyfile, Dispenser.ofBlock, Dispenser.Next, Dispenser.Nesting,
    Dispenser.remaining]
  rw [unmarshalLoop_open]
  apply unmarshalLoop_inside
  simp only [List.length_nil, Nat.zero_add]
  omega

/-- A recognised sub-directive without arguments makes the load fail, wherever it is. -/
theorem applyBlock_zero_args (l : Line) (after : List Line) (hname : KnownSubdirective l.name)
    (hargs : l.args = []) :
    ∀ (before : List Line) (f : FNMTClientAuth),
      ∃ e f1, applyBlock (before ++ l :: after) f = (some e, f1) := by
  intro before
  induction before with
  | nil =>
    intro f
    rw [List.nil_append, applyBlock]
    rcases hname with h | h | h
    · exact ⟨_, _, by rw [if_pos h, if_pos hargs]⟩
    · by_cases h1 : l.name = go "names"
      · exact ⟨_, _, by rw [if_pos h1, if_pos hargs]⟩
      · exact ⟨_, _, by rw [if_neg h1, if_pos h, if_pos hargs]⟩
    · by_cases h1 : l.name = go "names"
      · exact ⟨_, _, by rw [if_pos h1, if_pos hargs]⟩
      · by_cases h2 : l.name = go "dnis"
        · exact ⟨_, _, by rw [if_neg h1, if_pos h2, if_pos hargs]⟩
        · exact ⟨_, _, by rw [if_neg h1, if_neg h2, if_pos h, if_pos hargs]⟩
  | cons b bs ih =>
    intro f
    rw [List.cons_append, applyBlock]
    split_ifs
    · exact ⟨_, _, rfl⟩
    · exact ih _
    · exact ⟨_, _, rfl⟩
    · exact ih _
    · exact ⟨_, _, rfl⟩
    · exact ih _
    · exact ⟨_, _, rfl⟩

/-- A well-formed line is processed and the load goes on with the following lines. -/
theorem applyBlock_wellFormed_cons (b : Line) (bs : List Line) (f : FNMTClientAuth)
    (hb : b.WellFormed) : ∃ f1, applyBlock (b :: bs) f = applyBlock bs f1 := by
  obtain ⟨hname, hargs⟩ := hb
  rw [applyBlock]
  by_cases h1 : b.name = go "names"
  · exact ⟨_, by rw [if_pos h1, if_neg hargs]⟩
  · by_cases h2 : b.name = go "dnis"
    · exact ⟨_, by rw [if_neg h1, if_pos h2, if_neg hargs]⟩
    · have h3 : b.name = go "namednis" := by
        rcases hname with h | h | h
        · exact absurd h h1
        · exact absurd h h2
        · exact h
      exact ⟨_, by rw [if_neg h1, if_neg h2, if_pos h3, if_neg hargs]⟩

/-- After well-formed lines, an unrecognised sub-directive ends the load with the error
that names it. -/
theorem applyBlock_unknown (u : Line) (after : List Line) (hu : ¬ KnownSubdirective u.name) :
    ∀ (before : List Line) (f : FNMTClientAuth), (∀ b ∈ before, b.WellFormed) →
      ∃ f1, applyBlock (before ++ u :: after) f =
        (some (.errf (go "unknown subdirective \x27" ++ u.name ++ go "\x27")), f1) := by
  intro before
  induction before with
  | nil =>
    intro f _
    have h1 : u.name ≠ go "names" := fun h => hu (Or.inl h)
    have h2 : u.name ≠ go "dnis" := fun h => hu (Or.inr (Or.inl h))
    have h3 : u.name ≠ go "namednis" := fun h => hu (Or.inr (Or.inr h))
    exact ⟨f, by rw [List.nil_append, applyBlock, if_neg h1, if_neg h2, if_neg h3]⟩
  | cons b bs ih =>
    intro f hwf
    obtain ⟨f1, h⟩ := applyBlock_wellFormed_cons b (bs ++ u :: after) f
      (hwf b (List.mem_cons_self _ _))
    rw [List.cons_append, h]
    exact ih f1 (fun c hc => hwf c (List.mem_cons_of_mem _ hc))

/-- A block of well-formed lines loads without error. -/
theorem applyBlock_wellFormed :
    ∀ (block : List Line) (f : FNMTClientAuth), (∀ b ∈ block, b.WellFormed) →
      ∃ f1, applyBlock block f = (none, f1) := by
  intro block
  induction block with
  | nil =>
    intro f _
    exact ⟨f, rfl⟩
  | cons b bs ih =>
    intro f hwf
    obtain ⟨f1, h⟩ := applyBlock_wellFormed_cons b bs f (hwf b (List.mem_cons_self _ _))
    rw [h]
    exact ih f1 (fun c hc => hwf c (List.mem_cons_of_mem _ hc))

/-- A block of well-formed lines loads without error; afterwards `Names` holds the
arguments of the last `names` line, `Dnis` those of the last `dnis` or `namednis` line,
each left as it was when there is no such line, and `NameDnis` is as it was. -/
theorem applyBlock_last (block : List Line) :
    ∀ f : FNMTClientAuth, (∀ b ∈ block, b.WellFormed) →
      applyBlock block f =
        (none,
          { Names := lastArgs (fun l => decide (l.name = go "names")) f.Names block
            Dnis := lastArgs
              (fun l => decide (l.name = go "dnis" ∨ l.name = go "namednis")) f.Dnis block
            NameDnis := f.NameDnis }) := by
  have hdn : go "dnis" ≠ go "names" := by decide
  have hnn : go "namednis" ≠ go "names" := by decide
  induction block with
  | nil =>
    intro f _
    rfl
  | cons b bs ih =>
    intro f hwf
    obtain ⟨hname, hargs⟩ := hwf b (List.mem_cons_self _ _)
    have hbs : ∀ c ∈ bs, c.WellFormed := fun c hc => hwf c (List.mem_cons_of_mem _ hc)
    unfold lastArgs
    rw [lastOr_cons, lastOr_cons, applyBlock]
    by_cases h1 : b.name = go "names"
    · rw [if_pos h1, if_neg hargs, ih _ hbs]
      simp [lastArgs, h1, hdn.symm, hnn.symm]
    · by_cases h2 : b.name = go "dnis"
      · rw [if_neg h1, if_pos h2, if_neg hargs, ih _ hbs]
        simp [lastArgs, h2, hdn]
      · have h3 : b.name = go "namednis" := by
          rcases hname with h | h | h
          · exact absurd h h1
          · exact absurd h h2
          · exact h
        rw [if_neg h1, if_neg h2, if_pos h3, if_neg hargs, ih _ hbs]
        simp [lastArgs, h3, hnn]

/-- Loading a block of well-formed lines: each list holds the arguments of the last
line that assigns it. -/
theorem unmarshal_last_occurrence (f : FNMTClientAuth) (directive : GoString)
    (block : List Line) (hwf : ∀ b ∈ block, b.WellFormed) :
    UnmarshalCaddyfile f (Dispenser.ofBlock directive block) =
      some (none,
        { Names := lastArgs (fun l => decide (l.name = go "names")) f.Names block
          Dnis := lastArgs
            (fun l => decide (l.name = go "dnis" ∨ l.name = go "namednis")) f.Dnis block
          NameDnis := f.NameDnis }) := by
  rw [unmarshal_eq_applyBlock, applyBlock_last block f hwf]

/-! ## The verification contract -/

/-- C1: when the first raw certificate decodes to a certificate that passes both
profile checks (country list exactly `["ES"]`, serial number of length 15 starting with
`"IDCES-"`), and `givenName`, `surname` are the strings that `GetFirstAndSurNames`
extracts from it, the call returns, it returns `nil` exactly when
`givenName + " " + surname` is in `Names`, or the serial number without its first six
positions is in `Dnis`, or the common name is in `NameDnis`, and in every other case it
returns the error "client fnmt certificate failed validation". -/
theorem verify_success_iff_listed (parse : Decoder) (f : FNMTClientAuth) (logger : Logger)
    (raw : List Byte) (rest : List (List Byte)) (chains : List (List Certificate))
    (cert : Certificate) (givenName surname : GoString)
    (hparse : parse raw = .ok cert)
    (hcountry : cert.Subject.Country = [go "ES"])
    (hlen : len cert.Subject.SerialNumber = 15)
    (hpre : go "IDCES-" <+: cert.Subject.SerialNumber)
    (hnames : GetFirstAndSurNames cert = .ret (givenName, surname)) :
    ∃ err logger1,
      VerifyClientCertificate parse f logger (raw :: rest) chains = .ret (err, logger1) ∧
      (err = none ↔
        (givenName ++ go " " ++ surname ∈ f.Names ∨
          cert.Subject.SerialNumber.drop 6 ∈ f.Dnis ∨
          cert.Subject.CommonName ∈ f.NameDnis)) ∧
      (err ≠ none → err = some (go "client fnmt certificate failed validation")) := by
  rw [verify_reaches_matcher parse f logger raw rest chains cert givenName surname
    hparse hcountry hlen hpre hnames]
  rw [matchLists_eq]
  by_cases h1 : givenName ++ go " " ++ surname ∈ f.Names
  · rw [if_pos h1]
    exact ⟨_, _, rfl, by simp only [h1, true_or], fun h => absurd rfl h⟩
  · rw [if_neg h1]
    by_cases h2 : cert.Subject.SerialNumber.drop 6 ∈ f.Dnis
    · rw [if_pos h2]
      exact ⟨_, _, rfl, by simp only [h2, true_or, or_true], fun h => absurd rfl h⟩
    · rw [if_neg h2]
      by_cases h3 : cert.Subject.CommonName ∈ f.NameDnis
      · rw [if_pos h3]
        exact ⟨_, _, rfl, by simp only [h3, or_true], fun h => absurd rfl h⟩
      · rw [if_neg h3]
        refine ⟨_, _, rfl, ?_, fun _ => rfl⟩
        constructor
        · intro h
          cases h
        · rintro (h | h | h)
          · exact absurd h h1
          · exact absurd h h2
          · exact absurd h h3

/-- C1 at the running example, with a verifier that lists only its national ID. -/
theorem verify_success_iff_listed_witness :
    ∃ err logger1,
      VerifyClientCertificate exampleDecoder
        { Names := [], Dnis := [go "123456789"], NameDnis := [] } [] ([1] :: []) [] =
          .ret (err, logger1) ∧
      (err = none ↔
        (go "Juan" ++ go " " ++ go "Pérez García" ∈ ([] : List GoString) ∨
          juanCert.Subject.SerialNumber.drop 6 ∈ [go "123456789"] ∨
          juanCert.Subject.CommonName ∈ ([] : List GoString))) ∧
      (err ≠ none → err = some (go "client fnmt certificate failed validation")) :=
  verify_success_iff_listed exampleDecoder
    { Names := [], Dnis := [go "123456789"], NameDnis := [] } [] [1] [] [] juanCert
    (go "Juan") (go "Pérez García") rfl (by decide) (by decide) (by decide)
    (by decide)

/-- C2: for a certificate that passes the profile checks, the record written by a
successful call follows the precedence full name, national ID, combined token: when the
full name is in `Names` the record is the full-name one, whatever `Dnis` and `NameDnis`
hold; otherwise, when the national ID is in `Dnis`, it is the national-ID one, whatever
`NameDnis` holds; otherwise, when the common name is in `NameDnis`, it is the
combined-token one. -/
theorem verify_reason_precedence (parse : Decoder) (f : FNMTClientAuth) (logger : Logger)
    (raw : List Byte) (rest : List (List Byte)) (chains : List (List Certificate))
    (cert : Certificate) (givenName surname : GoString)
    (hparse : parse raw = .ok cert)
    (hcountry : cert.Subject.Country = [go "ES"])
    (hlen : len cert.Subject.SerialNumber = 15)
    (hpre : go "IDCES-" <+: cert.Subject.SerialNumber)
    (hnames : GetFirstAndSurNames cert = .ret (givenName, surname)) :
    (givenName ++ go " " ++ surname ∈ f.Names →
      VerifyClientCertificate parse f logger (raw :: rest) chains =
        .ret (none, logger.Info (go "client fnmt certificate full name matched")
          (go "name") (givenName ++ go " " ++ surname))) ∧
    (givenName ++ go " " ++ surname ∉ f.Names →
      cert.Subject.SerialNumber.drop 6 ∈ f.Dnis →
      VerifyClientCertificate parse f logger (raw :: rest) chains =
        .ret (none, logger.Info (go "client fnmt certificate dni matched")
          (go "dni") (cert.Subject.SerialNumber.drop 6))) ∧
    (givenName ++ go " " ++ surname ∉ f.Names →
      cert.Subject.SerialNumber.drop 6 ∉ f.Dnis →
      cert.Subject.CommonName ∈ f.NameDnis →
      VerifyClientCertificate parse f logger (raw :: rest) chains =
        .ret (none, logger.Info (go "client fnmt certificate full name and dni matched")
          (go "nameDni") cert.Subject.CommonName)) := by
  rw [verify_reaches_matcher parse f logger raw rest chains cert givenName surname
    hparse hcountry hlen hpre hnames, matchLists_eq]
  refine ⟨fun h1 => ?_, fun h1 h2 => ?_, fun h1 h2 h3 => ?_⟩
  · rw [if_pos h1]
  · rw [if_neg h1, if_pos h2]
  · rw [if_neg h1, if_neg h2, if_pos h3]

/-- C2 at the running example: with its full name, national ID and common name all
listed, the record written is the full-name one. -/
theorem verify_reason_precedence_witness :
    VerifyClientCertificate exampleDecoder allListsVerifier [] ([1] :: []) [] =
      .ret (none, Logger.Info [] (go "client fnmt certificate full name matched")
        (go "name") (go "Juan" ++ go " " ++ go "Pérez García")) :=
  (verify_reason_precedence exampleDecoder allListsVerifier [] [1] [] [] juanCert
    (go "Juan") (go "Pérez García") rfl (by decide) (by decide) (by decide)
    (by decide)).1 (by decide)

/-- C3: when the leaf certificate decodes and its country list is not exactly
`["ES"]` (empty, longer than one entry, or a single entry other than "ES"), the call
returns the profile-mismatch error of the country check, for every content of the three
lists, and writes no record. -/
theorem verify_country_mismatch (parse : Decoder) (f : FNMTClientAuth) (logger : Logger)
    (raw : List Byte) (rest : List (List Byte)) (chains : List (List Certificate))
    (cert : Certificate)
    (hparse : parse raw = .ok cert)
    (hcountry : cert.Subject.Country ≠ [go "ES"]) :
    VerifyClientCertificate parse f logger (raw :: rest) chains =
      .ret (some (go "client fnmt certificate country failed validation"), logger) := by
  simp [VerifyClientCertificate, len, index, hparse, countryCheck_eq, hcountry]

/-- C3 at the running example issued for country PT, with a verifier that lists its
full name, national ID and common name. -/
theorem verify_country_mismatch_witness :
    foreignCert.Subject.Country ≠ [go "ES"] ∧
    VerifyClientCertificate exampleDecoder allListsVerifier [] ([3] :: []) [] =
      .ret (some (go "client fnmt certificate country failed validation"), []) :=
  ⟨by decide,
    verify_country_mismatch exampleDecoder allListsVerifier [] [3] [] [] foreignCert rfl
      (by decide)⟩

/-- C4, as the code has it: when the leaf certificate decodes and its serial number is
not 15 bytes long (Go `len`) or does not begin with "IDCES-", the call returns one of the
two profile-mismatch errors, the country one or the serial-number one, for every content
of the three lists, and writes no record. -/
theorem verify_serial_mismatch (parse : Decoder) (f : FNMTClientAuth) (logger : Logger)
    (raw : List Byte) (rest : List (List Byte)) (chains : List (List Certificate))
    (cert : Certificate)
    (hparse : parse raw = .ok cert)
    (hserial : len cert.Subject.SerialNumber ≠ 15 ∨
      ¬ go "IDCES-" <+: cert.Subject.SerialNumber) :
    VerifyClientCertificate parse f logger (raw :: rest) chains =
      .ret (some (go "client fnmt certificate country failed validation"), logger) ∨
    VerifyClientCertificate parse f logger (raw :: rest) chains =
      .ret (some (go "client fnmt certificate serial number failed validation"), logger) := by
  have hs : ¬ (len cert.Subject.SerialNumber = 15 ∧
      go "IDCES-" <+: cert.Subject.SerialNumber) := by
    rintro ⟨h1, h2⟩
    rcases hserial with h | h
    · exact h h1
    · exact h h2
  rw [verify_decoded parse f logger raw rest chains cert hparse]
  by_cases hc : cert.Subject.Country = [go "ES"]
  · right
    rw [if_pos hc, if_neg hs]
  · left
    rw [if_neg hc]

/-- C4 at the running example with serial number "123456789", with a verifier that
lists its full name, national ID and common name. -/
theorem verify_serial_mismatch_witness :
    (len badSerialCert.Subject.SerialNumber ≠ 15 ∨
      ¬ go "IDCES-" <+: badSerialCert.Subject.SerialNumber) ∧
    (VerifyClientCertificate exampleDecoder allListsVerifier [] ([4] :: []) [] =
      .ret (some (go "client fnmt certificate country failed validation"), []) ∨
    VerifyClientCertificate exampleDecoder allListsVerifier [] ([4] :: []) [] =
      .ret (some (go "client fnmt certificate serial number failed validation"), [])) :=
  ⟨Or.inl (by decide),
    verify_serial_mismatch exampleDecoder allListsVerifier [] [4] [] [] badSerialCert rfl
      (Or.inl (by decide))⟩

/-- C4 as stated fails on the serial number "IDCES-ñ1234567": it is 14 characters
long, not 15, in 15 bytes.  The certificate decodes and passes the serial-number check;
a verifier that lists "ñ1234567" in `Dnis` returns `nil` for it, and a verifier with
empty lists returns the error "client fnmt certificate failed validation", which is not
one of the two profile-mismatch errors. -/
theorem serial_fourteen_characters_accepted :
    edgeDecoder [3] = .ok multiByteCert ∧
    characterCount multiByteCert.Subject.SerialNumber = 14 ∧
    len multiByteCert.Subject.SerialNumber = 15 ∧
    serialCheck multiByteCert = .ret true ∧
    VerifyClientCertificate edgeDecoder
        { Names := [], Dnis := [go "ñ1234567"], NameDnis := [] } [] ([3] :: []) [] =
      .ret (none,
        [{ msg := go "client fnmt certificate dni matched", key := go "dni",
           value := go "ñ1234567" }]) ∧
    VerifyClientCertificate edgeDecoder emptyVerifier [] ([3] :: []) [] =
      .ret (some (go "client fnmt certificate failed validation"), []) := by
  refine ⟨rfl, ?_, ?_, ?_, ?_, ?_⟩ <;> decide

/-- C6: a call with no raw certificate returns the error "no client certificate
provided" and leaves the log as it was, whatever the decoder, the three lists, the log
and the chains are: the outcome is fixed before the decoder, the profile checks, the
extractor or the allow-list loops could contribute to it. -/
theorem verify_no_certificate (parse : Decoder) (f : FNMTClientAuth) (logger : Logger)
    (chains : List (List Certificate)) :
    VerifyClientCertificate parse f logger [] chains =
      .ret (some (go "no client certificate provided"), logger) := by
  simp [VerifyClientCertificate, len]

/-- C10: matching is exact.  For a certificate that passes the profile checks and a
verifier whose `Dnis` and `NameDnis` are empty, when no entry of `Names` is equal, byte
for byte, to `givenName + " " + surname`, the call returns the error "client fnmt
certificate failed validation" and writes no record. -/
theorem verify_names_exact (parse : Decoder) (f : FNMTClientAuth) (logger : Logger)
    (raw : List Byte) (rest : List (List Byte)) (chains : List (List Certificate))
    (cert : Certificate) (givenName surname : GoString)
    (hparse : parse raw = .ok cert)
    (hcountry : cert.Subject.Country = [go "ES"])
    (hlen : len cert.Subject.SerialNumber = 15)
    (hpre : go "IDCES-" <+: cert.Subject.SerialNumber)
    (hnames : GetFirstAndSurNames cert = .ret (givenName, surname))
    (hdnis : f.Dnis = []) (hnamednis : f.NameDnis = [])
    (hdiffer : ∀ n ∈ f.Names, n ≠ givenName ++ go " " ++ surname) :
    VerifyClientCertificate parse f logger (raw :: rest) chains =
      .ret (some (go "client fnmt certificate failed validation"), logger) := by
  have h1 : givenName ++ go " " ++ surname ∉ f.Names := fun h => hdiffer _ h rfl
  rw [verify_reaches_matcher parse f logger raw rest chains cert givenName surname
    hparse hcountry hlen hpre hnames, matchLists_eq, if_neg h1, hdnis, hnamednis]
  simp

/-- C10 at the spec's example: a certificate whose full name is "juan pérez garcía" is
not authorized by `Names = ["Juan Pérez García"]`. -/
theorem verify_names_exact_witness :
    VerifyClientCertificate exampleDecoder
      { Names := [go "Juan Pérez García"], Dnis := [], NameDnis := [] } [] ([2] :: []) [] =
      .ret (some (go "client fnmt certificate failed validation"), []) :=
  verify_names_exact exampleDecoder
    { Names := [go "Juan Pérez García"], Dnis := [], NameDnis := [] } [] [2] [] []
    lowerCaseCert (go "juan") (go "pérez garcía") rfl (by decide) (by decide) (by decide)
    (by decide) rfl rfl (by decide)

/-! ## The configuration contract -/

/-- C5: what the code does on the block `fnmt { namednis "Juan Pérez García - 123456789" }`
loaded into a verifier with empty lists.  The load succeeds, but the argument is stored
in `Dnis` and `NameDnis` stays empty, and the verifier so loaded rejects the running
example, whose common name is that argument, with "client fnmt certificate failed
validation". -/
theorem namednis_block_fills_dnis :
    UnmarshalCaddyfile emptyVerifier
        (Dispenser.ofBlock (go "fnmt")
          [{ name := go "namednis", args := [go "Juan Pérez García - 123456789"] }]) =
      some (none,
        { Names := [], Dnis := [go "Juan Pérez García - 123456789"], NameDnis := [] }) ∧
    VerifyClientCertificate exampleDecoder
        { Names := [], Dnis := [go "Juan Pérez García - 123456789"], NameDnis := [] }
        [] ([1] :: []) [] =
      .ret (some (go "client fnmt certificate failed validation"), []) := by
  constructor
  · decide
  · decide

/-- C7: a block in which `names`, `dnis` or `namednis` appears without arguments does
not load: `UnmarshalCaddyfile` returns an error, whatever lines come before and after
that one and whatever the verifier held before. -/
theorem unmarshal_zero_args_error (f : FNMTClientAuth) (directive : GoString)
    (before after : List Line) (l : Line)
    (hname : l.name = go "names" ∨ l.name = go "dnis" ∨ l.name = go "namednis")
    (hargs : l.args = []) :
    ∃ e f1, UnmarshalCaddyfile f (Dispenser.ofBlock directive (before ++ l :: after)) =
      some (some e, f1) := by
  obtain ⟨e, f1, h⟩ := applyBlock_zero_args l after hname hargs before f
  exact ⟨e, f1, by rw [unmarshal_eq_applyBlock, h]⟩

/-- C7 on the block `names a` / `dnis` / `namednis b`. -/
theorem unmarshal_zero_args_error_witness :
    ∃ e f1, UnmarshalCaddyfile emptyVerifier
      (Dispenser.ofBlock (go "fnmt")
        ([{ name := go "names", args := [go "a"] }] ++
          { name := go "dnis", args := [] } ::
          [{ name := go "namednis", args := [go "b"] }])) = some (some e, f1) :=
  unmarshal_zero_args_error emptyVerifier (go "fnmt")
    [{ name := go "names", args := [go "a"] }]
    [{ name := go "namednis", args := [go "b"] }]
    { name := go "dnis", args := [] } (Or.inr (Or.inl rfl)) rfl

/-- C8: when a line names a sub-directive other than `names`, `dnis`, `namednis` and
every line before it is well-formed, `UnmarshalCaddyfile` returns the error "unknown
subdirective" followed by that name in quotes; and a block whose lines are all
well-formed (a recognised sub-directive with at least one argument) loads without
error. -/
theorem unmarshal_unknown_subdirective (f : FNMTClientAuth) (directive : GoString)
    (before after block : List Line) (u : Line)
    (hbefore : ∀ b ∈ before, b.WellFormed)
    (hu : ¬ KnownSubdirective u.name)
    (hblock : ∀ b ∈ block, b.WellFormed) :
    (∃ f1, UnmarshalCaddyfile f (Dispenser.ofBlock directive (before ++ u :: after)) =
      some (some (.errf (go "unknown subdirective \x27" ++ u.name ++ go "\x27")), f1)) ∧
    (∃ f1, UnmarshalCaddyfile f (Dispenser.ofBlock directive block) = some (none, f1)) := by
  obtain ⟨f1, h1⟩ := applyBlock_unknown u after hu before f hbefore
  obtain ⟨f2, h2⟩ := applyBlock_wellFormed block f hblock
  exact ⟨⟨f1, by rw [unmarshal_eq_applyBlock, h1]⟩, ⟨f2, by rw [unmarshal_eq_applyBlock, h2]⟩⟩

/-- C8 on the blocks `names a` / `nombres b` / `dnis c` and `names a` / `dnis c`. -/
theorem unmarshal_unknown_subdirective_witness :
    (∃ f1, UnmarshalCaddyfile emptyVerifier
      (Dispenser.ofBlock (go "fnmt")
        ([{ name := go "names", args := [go "a"] }] ++
          { name := go "nombres", args := [go "b"] } ::
          [{ name := go "dnis", args := [go "c"] }])) =
      some (some (.errf (go "unknown subdirective \x27" ++ go "nombres" ++ go "\x27")), f1)) ∧
    (∃ f1, UnmarshalCaddyfile emptyVerifier
      (Dispenser.ofBlock (go "fnmt")
        [{ name := go "names", args := [go "a"] },
          { name := go "dnis", args := [go "c"] }]) = some (none, f1)) :=
  unmarshal_unknown_subdirective emptyVerifier (go "fnmt")
    [{ name := go "names", args := [go "a"] }]
    [{ name := go "dnis", args := [go "c"] }]
    [{ name := go "names", args := [go "a"] }, { name := go "dnis", args := [go "c"] }]
    { name := go "nombres", args := [go "b"] }
    (by decide) (by decide) (by decide)

/-- C9: loading the single line `names xs` with `xs` non-empty sets `Names` to `xs`, in
order, and leaves `Dnis` and `NameDnis` as they were; loading the single line `dnis ys`
with `ys` non-empty sets `Dnis` to `ys` and leaves `Names` and `NameDnis` as they
were. -/
theorem unmarshal_names_dnis_frame (f : FNMTClientAuth) (directive : GoString)
    (xs ys : List GoString) (hxs : xs ≠ []) (hys : ys ≠ []) :
    UnmarshalCaddyfile f (Dispenser.ofBlock directive [{ name := go "names", args := xs }]) =
      some (none, { Names := xs, Dnis := f.Dnis, NameDnis := f.NameDnis }) ∧
    UnmarshalCaddyfile f (Dispenser.ofBlock directive [{ name := go "dnis", args := ys }]) =
      some (none, { Names := f.Names, Dnis := ys, NameDnis := f.NameDnis }) := by
  have hne : go "dnis" ≠ go "names" := by decide
  constructor
  · rw [unmarshal_eq_applyBlock, applyBlock, if_pos rfl, if_neg hxs, applyBlock]
  · rw [unmarshal_eq_applyBlock, applyBlock, if_neg hne, if_pos rfl, if_neg hys, applyBlock]

/-- C9 on `names "Juan Pérez García" "Ana Ruiz"` and `dnis 123456789`, loaded into a
verifier that already holds entries in all three lists. -/
theorem unmarshal_names_dnis_frame_witness :
    UnmarshalCaddyfile allListsVerifier
        (Dispenser.ofBlock (go "fnmt")
          [{ name := go "names", args := [go "Juan Pérez García", go "Ana Ruiz"] }]) =
      some (none,
        { Names := [go "Juan Pérez García", go "Ana Ruiz"]
          Dnis := allListsVerifier.Dnis
          NameDnis := allListsVerifier.NameDnis }) ∧
    UnmarshalCaddyfile allListsVerifier
        (Dispenser.ofBlock (go "fnmt") [{ name := go "dnis", args := [go "00000000T"] }]) =
      some (none,
        { Names := allListsVerifier.Names
          Dnis := [go "00000000T"]
          NameDnis := allListsVerifier.NameDnis }) :=
  unmarshal_names_dnis_frame allListsVerifier (go "fnmt")
    [go "Juan Pérez García", go "Ana Ruiz"] [go "00000000T"] (by decide) (by decide)

/-! ## Errors, log and dependence of a verification call -/

/-- C11: an empty list never matches.  With a decoder whose certificates have string
given name and surname (the extractor returns on them), a verifier whose three lists are
empty returns an error for every `rawCerts`, log and chains, and writes no record; and
for every verifier, a call that returns `nil` has found its value in one of the lists, so
a list that is empty contributes no match. -/
theorem verify_empty_lists_never_match (parse : Decoder) (f : FNMTClientAuth)
    (logger : Logger) (rawCerts : List (List Byte)) (chains : List (List Certificate))
    (hret : ∀ raw cert, parse raw = .ok cert → ∃ gs, GetFirstAndSurNames cert = .ret gs) :
    (f.Names = [] → f.Dnis = [] → f.NameDnis = [] →
      ∃ e, VerifyClientCertificate parse f logger rawCerts chains =
        .ret (some e, logger)) ∧
    (∀ logger1,
      VerifyClientCertificate parse f logger rawCerts chains = .ret (none, logger1) →
        (∃ v ∈ f.Names,
          logger1 = logger.Info (go "client fnmt certificate full name matched")
            (go "name") v) ∨
        (∃ v ∈ f.Dnis,
          logger1 = logger.Info (go "client fnmt certificate dni matched") (go "dni") v) ∨
        (∃ v ∈ f.NameDnis,
          logger1 = logger.Info (go "client fnmt certificate full name and dni matched")
            (go "nameDni") v)) := by
  cases rawCerts with
  | nil =>
    rw [verify_nil]
    exact ⟨fun _ _ _ => ⟨_, rfl⟩, fun _ h => by cases h⟩
  | cons raw rest =>
    cases hparse : parse raw with
    | error e =>
      rw [verify_undecoded parse f logger raw rest chains e hparse]
      exact ⟨fun _ _ _ => ⟨_, rfl⟩, fun _ h => by cases h⟩
    | ok cert =>
      rw [verify_decoded parse f logger raw rest chains cert hparse]
      by_cases hc : cert.Subject.Country = [go "ES"]
      · by_cases hs : len cert.Subject.SerialNumber = 15 ∧
            go "IDCES-" <+: cert.Subject.SerialNumber
        · obtain ⟨⟨g, sn⟩, hgs⟩ := hret raw cert hparse
          rw [if_pos hc, if_pos hs, hgs]
          simp only []
          rw [matchLists_eq]
          constructor
          · intro h1 h2 h3
            rw [h1, h2, h3]
            exact ⟨go "client fnmt certificate failed validation", by simp⟩
          · intro logger1 h
            split_ifs at h with k1 k2 k3
            · cases h
              exact Or.inl ⟨_, k1, rfl⟩
            · cases h
              exact Or.inr (Or.inl ⟨_, k2, rfl⟩)
            · cases h
              exact Or.inr (Or.inr ⟨_, k3, rfl⟩)
            · cases h
        · rw [if_pos hc, if_neg hs]
          exact ⟨fun _ _ _ => ⟨_, rfl⟩, fun _ h => by cases h⟩
      · rw [if_neg hc]
        exact ⟨fun _ _ _ => ⟨_, rfl⟩, fun _ h => by cases h⟩

theorem edgeDecoder_returns (raw : List Byte) (cert : Certificate)
    (h : edgeDecoder raw = .ok cert) : ∃ gs, GetFirstAndSurNames cert = .ret gs := by
  unfold edgeDecoder at h
  split_ifs at h <;> cases h <;> exact ⟨_, rfl⟩

/-- C11 on the certificate without given name, surname and common name: the verifier
with empty lists rejects it. -/
theorem verify_empty_lists_never_match_witness :
    ∃ e, VerifyClientCertificate edgeDecoder emptyVerifier [] ([1] :: []) [] =
      .ret (some e, []) :=
  (verify_empty_lists_never_match edgeDecoder emptyVerifier [] ([1] :: []) []
    edgeDecoder_returns).1 rfl rfl rfl

/-- C15: when the decoder fails on the first raw certificate with diagnostic `e`, the
call returns the error "error parsing the given certificate: " followed by `e` and
writes no record, whatever the three lists hold: no certificate exists for a profile
check or a comparison to look at. -/
theorem verify_malformed_certificate (parse : Decoder) (f : FNMTClientAuth)
    (logger : Logger) (raw : List Byte) (rest : List (List Byte))
    (chains : List (List Certificate)) (e : GoString)
    (hparse : parse raw = .error e) :
    VerifyClientCertificate parse f logger (raw :: rest) chains =
      .ret (some (go "error parsing the given certificate: " ++ e), logger) :=
  verify_undecoded parse f logger raw rest chains e hparse

/-- C15 on an encoding that the example decoder rejects, with a verifier that lists
the identity of the running example. -/
theorem verify_malformed_certificate_witness :
    VerifyClientCertificate exampleDecoder allListsVerifier [] ([9] :: []) [] =
      .ret (some (go "error parsing the given certificate: " ++
        go "x509: malformed certificate"), []) :=
  verify_malformed_certificate exampleDecoder allListsVerifier [] [9] [] []
    (go "x509: malformed certificate") rfl

/-- C12: the log of a call that returns.  When the call returns `nil`, the leaf
certificate decoded, the extractor returned `givenName` and `surname`, and exactly one
record was appended: the full-name record with the full name when that is in `Names`;
otherwise the national-ID record with the national ID when that is in `Dnis`; otherwise
the combined-token record with the common name, which is then in `NameDnis`.  When the
call returns an error, whichever it is, the log is unchanged. -/
theorem verify_log_contract (parse : Decoder) (f : FNMTClientAuth) (logger : Logger)
    (rawCerts : List (List Byte)) (chains : List (List Certificate))
    (err : GoError) (logger1 : Logger)
    (hcall : VerifyClientCertificate parse f logger rawCerts chains = .ret (err, logger1)) :
    (err = none →
      ∃ raw rest cert givenName surname,
        rawCerts = raw :: rest ∧ parse raw = .ok cert ∧
        GetFirstAndSurNames cert = .ret (givenName, surname) ∧
        ((givenName ++ go " " ++ surname ∈ f.Names ∧
            logger1 = logger ++
              [{ msg := go "client fnmt certificate full name matched", key := go "name",
                 value := givenName ++ go " " ++ surname }]) ∨
          (givenName ++ go " " ++ surname ∉ f.Names ∧
            cert.Subject.SerialNumber.drop 6 ∈ f.Dnis ∧
            logger1 = logger ++
              [{ msg := go "client fnmt certificate dni matched", key := go "dni",
                 value := cert.Subject.SerialNumber.drop 6 }]) ∨
          (givenName ++ go " " ++ surname ∉ f.Names ∧
            cert.Subject.SerialNumber.drop 6 ∉ f.Dnis ∧
            cert.Subject.CommonName ∈ f.NameDnis ∧
            logger1 = logger ++
              [{ msg := go "client fnmt certificate full name and dni matched",
                 key := go "nameDni", value := cert.Subject.CommonName }]))) ∧
    (err ≠ none → logger1 = logger) := by
  cases rawCerts with
  | nil =>
    rw [verify_nil] at hcall
    cases hcall
    exact ⟨fun h => (by cases h), fun _ => rfl⟩
  | cons raw rest =>
    cases hparse : parse raw with
    | error e =>
      rw [verify_undecoded parse f logger raw rest chains e hparse] at hcall
      cases hcall
      exact ⟨fun h => (by cases h), fun _ => rfl⟩
    | ok cert =>
      rw [verify_decoded parse f logger raw rest chains cert hparse] at hcall
      by_cases hc : cert.Subject.Country = [go "ES"]
      · by_cases hs : len cert.Subject.SerialNumber = 15 ∧
            go "IDCES-" <+: cert.Subject.SerialNumber
        · rw [if_pos hc, if_pos hs] at hcall
          cases hgs : GetFirstAndSurNames cert with
          | panic p =>
            rw [hgs] at hcall
            cases hcall
          | ret gs =>
            obtain ⟨g, sn⟩ := gs
            rw [hgs] at hcall
            simp only [] at hcall
            rw [matchLists_eq] at hcall
            split_ifs at hcall with k1 k2 k3
            · cases hcall
              exact ⟨fun _ => ⟨raw, rest, cert, g, sn, rfl, hparse, hgs,
                Or.inl ⟨k1, rfl⟩⟩, fun h => absurd rfl h⟩
            · cases hcall
              exact ⟨fun _ => ⟨raw, rest, cert, g, sn, rfl, hparse, hgs,
                Or.inr (Or.inl ⟨k1, k2, rfl⟩)⟩, fun h => absurd rfl h⟩
            · cases hcall
              exact ⟨fun _ => ⟨raw, rest, cert, g, sn, rfl, hparse, hgs,
                Or.inr (Or.inr ⟨k1, k2, k3, rfl⟩)⟩, fun h => absurd rfl h⟩
            · cases hcall
              exact ⟨fun h => (by cases h), fun _ => rfl⟩
        · rw [if_pos hc, if_neg hs] at hcall
          cases hcall
          exact ⟨fun h => (by cases h), fun _ => rfl⟩
      · rw [if_neg hc] at hcall
        cases hcall
        exact ⟨fun h => (by cases h), fun _ => rfl⟩

/-- C12 on the running example with a verifier that lists only its national ID and its
common name, called with two records already in the log: the call returns `nil` and the
one record appended is the national-ID one; and on the same certificate with empty
lists, where the call returns an error and the log keeps its two records. -/
theorem verify_log_contract_witness :
    (∃ raw rest cert givenName surname,
        ([1] :: [] : List (List Byte)) = raw :: rest ∧ exampleDecoder raw = .ok cert ∧
        GetFirstAndSurNames cert = .ret (givenName, surname) ∧
        ((givenName ++ go " " ++ surname ∈ ([] : List GoString) ∧
            (List.replicate 2 (LogRecord.mk (go "earlier") (go "k") (go "v")) ++
              [{ msg := go "client fnmt certificate dni matched", key := go "dni",
                 value := go "123456789" }]) =
              List.replicate 2 (LogRecord.mk (go "earlier") (go "k") (go "v")) ++
              [{ msg := go "client fnmt certificate full name matched", key := go "name",
                 value := givenName ++ go " " ++ surname }]) ∨
          (givenName ++ go " " ++ surname ∉ ([] : List GoString) ∧
            cert.Subject.SerialNumber.drop 6 ∈ [go "123456789"] ∧
            (List.replicate 2 (LogRecord.mk (go "earlier") (go "k") (go "v")) ++
              [{ msg := go "client fnmt certificate dni matched", key := go "dni",
                 value := go "123456789" }]) =
              List.replicate 2 (LogRecord.mk (go "earlier") (go "k") (go "v")) ++
              [{ msg := go "client fnmt certificate dni matched", key := go "dni",
                 value := cert.Subject.SerialNumber.drop 6 }]) ∨
          (givenName ++ go " " ++ surname ∉ ([] : List GoString) ∧
            cert.Subject.SerialNumber.drop 6 ∉ [go "123456789"] ∧
            cert.Subject.CommonName ∈ [go "Juan Pérez García - 123456789"] ∧
            (List.replicate 2 (LogRecord.mk (go "earlier") (go "k") (go "v")) ++
              [{ msg := go "client fnmt certificate dni matched", key := go "dni",
                 value := go "123456789" }]) =
              List.replicate 2 (LogRecord.mk (go "earlier") (go "k") (go "v")) ++
              [{ msg := go "client fnmt certificate full name and dni matched",
                 key := go "nameDni", value := cert.Subject.CommonName }]))) ∧
    List.replicate 2 (LogRecord.mk (go "earlier") (go "k") (go "v")) =
      List.replicate 2 (LogRecord.mk (go "earlier") (go "k") (go "v")) :=
  ⟨(verify_log_contract exampleDecoder
      { Names := [], Dnis := [go "123456789"],
        NameDnis := [go "Juan Pérez García - 123456789"] }
      (List.replicate 2 (LogRecord.mk (go "earlier") (go "k") (go "v")))
      ([1] :: []) [] none
      (List.replicate 2 (LogRecord.mk (go "earlier") (go "k") (go "v")) ++
        [{ msg := go "client fnmt certificate dni matched", key := go "dni",
           value := go "123456789" }])
      (by decide)).1 rfl,
    (verify_log_contract exampleDecoder emptyVerifier
      (List.replicate 2 (LogRecord.mk (go "earlier") (go "k") (go "v")))
      ([1] :: []) [] (some (go "client fnmt certificate failed validation"))
      (List.replicate 2 (LogRecord.mk (go "earlier") (go "k") (go "v")))
      (by decide)).2 (by decide)⟩

/-- C13: two calls on the same verifier whose `rawCerts` agree on the first element
(or are both empty) have the same outcome, whatever the other raw certificates, the
chains and the records written by earlier calls are: either both return, with the same
error value and the same appended records, or both abort in the same way.  The lists are
an input of the call and not part of its result, so a call leaves them as they are. -/
theorem verify_depends_on_leaf_and_lists (parse : Decoder) (f : FNMTClientAuth)
    (logger1 logger2 : Logger) (rawCerts1 rawCerts2 : List (List Byte))
    (chains1 chains2 : List (List Certificate))
    (hleaf : rawCerts1.head? = rawCerts2.head?) :
    (∃ err added,
      VerifyClientCertificate parse f logger1 rawCerts1 chains1 =
        .ret (err, logger1 ++ added) ∧
      VerifyClientCertificate parse f logger2 rawCerts2 chains2 =
        .ret (err, logger2 ++ added)) ∨
    (∃ p,
      VerifyClientCertificate parse f logger1 rawCerts1 chains1 = .panic p ∧
      VerifyClientCertificate parse f logger2 rawCerts2 chains2 = .panic p) := by
  rw [verify_frame parse f logger1 rawCerts1 chains1,
    verify_frame parse f logger2 rawCerts2 chains2, hleaf]
  cases VerifyClientCertificate parse f [] rawCerts2.head?.toList [] with
  | ret r =>
    obtain ⟨err, added⟩ := r
    exact Or.inl ⟨err, added, rfl, rfl⟩
  | panic p => exact Or.inr ⟨p, rfl, rfl⟩

/-- C13 on the running example: alone with an empty log and no chains, and followed by
two other raw certificates, with a chain and after an earlier record. -/
theorem verify_depends_on_leaf_and_lists_witness :
    (∃ err added,
      VerifyClientCertificate exampleDecoder allListsVerifier [] ([1] :: []) [] =
        .ret (err, [] ++ added) ∧
      VerifyClientCertificate exampleDecoder allListsVerifier
          [LogRecord.mk (go "earlier") (go "k") (go "v")] ([1] :: [9] :: [3] :: [])
          [[foreignCert]] =
        .ret (err, [LogRecord.mk (go "earlier") (go "k") (go "v")] ++ added)) ∨
    (∃ p,
      VerifyClientCertificate exampleDecoder allListsVerifier [] ([1] :: []) [] =
        .panic p ∧
      VerifyClientCertificate exampleDecoder allListsVerifier
          [LogRecord.mk (go "earlier") (go "k") (go "v")] ([1] :: [9] :: [3] :: [])
          [[foreignCert]] = .panic p) :=
  verify_depends_on_leaf_and_lists exampleDecoder allListsVerifier []
    [LogRecord.mk (go "earlier") (go "k") (go "v")] ([1] :: []) ([1] :: [9] :: [3] :: [])
    [] [[foreignCert]] rfl

/-! ## The attribute extractor -/

/-- C14: what the code does on a certificate whose surname attribute (type 2.5.4.4)
holds a value that is not a string: `GetFirstAndSurNames` does not return a pair, the
type assertion `name.Value.(string)` panics. -/
theorem GetFirstAndSurNames_aborts_on_non_string :
    GetFirstAndSurNames nonStringCert = .panic .interfaceConversion := by
  decide

/-- C16: on a certificate whose subject attributes all hold strings,
`GetFirstAndSurNames` returns as given name the value of the last attribute of type
2.5.4.42, or the empty string when there is none, and as surname the value of the last
attribute of type 2.5.4.4, or the empty string when there is none; and it returns the
same pair once all attributes of other types are removed from the subject. -/
theorem GetFirstAndSurNames_last_values (cert : Certificate)
    (hstr : ∀ a ∈ cert.Subject.Names, ∃ v, a.Value = .str v) :
    GetFirstAndSurNames cert =
      .ret (lastValueOfType [2, 5, 4, 42] cert.Subject.Names,
        lastValueOfType [2, 5, 4, 4] cert.Subject.Names) ∧
    GetFirstAndSurNames
        { Subject :=
          { cert.Subject with
            Names := cert.Subject.Names.filter
              (fun a => decide (a.Type_ = [2, 5, 4, 4] ∨ a.Type_ = [2, 5, 4, 42])) } } =
      GetFirstAndSurNames cert := by
  refine ⟨GetFirstAndSurNames_strings cert hstr, ?_⟩
  rw [GetFirstAndSurNames_strings cert hstr, GetFirstAndSurNames_strings]
  · simp only []
    rw [lastValueOfType_filter, lastValueOfType_filter]
    · intro a ha
      simp [ha]
    · intro a ha
      simp [ha]
  · intro a ha
    exact hstr a (List.mem_of_mem_filter ha)

/-- C16 on a certificate with the attributes Juan, Pérez, a common name, Juana, García,
in this order: the pair returned is (Juana, García), with or without the common-name
attribute. -/
theorem GetFirstAndSurNames_last_values_witness :
    GetFirstAndSurNames repeatedNamesCert = .ret (go "Juana", go "García") ∧
    GetFirstAndSurNames
        { Subject :=
          { repeatedNamesCert.Subject with
            Names := repeatedNamesCert.Subject.Names.filter
              (fun a => decide (a.Type_ = [2, 5, 4, 4] ∨ a.Type_ = [2, 5, 4, 42])) } } =
      GetFirstAndSurNames repeatedNamesCert :=
  GetFirstAndSurNames_last_values repeatedNamesCert (by
    intro a ha
    simp only [repeatedNamesCert, List.mem_cons, List.mem_singleton, List.not_mem_nil,
      or_false] at ha
    rcases ha with rfl | rfl | rfl | rfl | rfl <;> exact ⟨_, rfl⟩)

/-! ## Profile checks and slices -/

/-- C17, as the code has it: when the serial number is 15 bytes long and begins with
"IDCES-", the national ID `SerialNumber[6:]` is in range, is exactly 9 bytes long and
satisfies `"IDCES-" + nationalId == SerialNumber`, whatever bytes follow the prefix; it
is 9 characters long when the serial number holds no multi-byte character. -/
theorem national_id_nine_bytes (cert : Certificate)
    (hlen : len cert.Subject.SerialNumber = 15)
    (hpre : go "IDCES-" <+: cert.Subject.SerialNumber) :
    sliceFrom cert.Subject.SerialNumber 6 = .ret (cert.Subject.SerialNumber.drop 6) ∧
    len (cert.Subject.SerialNumber.drop 6) = 9 ∧
    go "IDCES-" ++ cert.Subject.SerialNumber.drop 6 = cert.Subject.SerialNumber ∧
    ((∀ b ∈ cert.Subject.SerialNumber, b.val < 0x80) →
      characterCount (cert.Subject.SerialNumber.drop 6) = 9) := by
  have h6 : (go "IDCES-").length = 6 := by decide
  obtain ⟨t, ht⟩ := hpre
  have hdrop : cert.Subject.SerialNumber.drop 6 = t := by
    rw [← ht, ← h6, List.drop_left]
  have hl : cert.Subject.SerialNumber.length = 15 := hlen
  have h9 : (cert.Subject.SerialNumber.drop 6).length = 9 := by
    rw [List.length_drop, hl]
  refine ⟨?_, h9, ?_, ?_⟩
  · unfold sliceFrom len
    rw [if_pos (by omega)]
  · rw [hdrop, ht]
  · intro hascii
    unfold characterCount
    rw [List.filter_eq_self.mpr, h9]
    intro b hb
    have := hascii b (List.mem_of_mem_drop hb)
    simp [this]

/-- C17 on the serial number "IDCES-ñ1234567": 15 bytes, of which two encode "ñ". -/
theorem national_id_nine_bytes_witness :
    sliceFrom multiByteCert.Subject.SerialNumber 6 =
      .ret (multiByteCert.Subject.SerialNumber.drop 6) ∧
    len (multiByteCert.Subject.SerialNumber.drop 6) = 9 ∧
    go "IDCES-" ++ multiByteCert.Subject.SerialNumber.drop 6 =
      multiByteCert.Subject.SerialNumber ∧
    ((∀ b ∈ multiByteCert.Subject.SerialNumber, b.val < 0x80) →
      characterCount (multiByteCert.Subject.SerialNumber.drop 6) = 9) :=
  national_id_nine_bytes multiByteCert (by decide) (by decide)

/-- C17 as stated fails on the serial number "IDCES-ñ1234567": the certificate passes
both profile checks, its national ID is "ñ1234567", which has 8 characters in 9 bytes,
and a verifier that lists "ñ1234567" in `Dnis` authorizes it. -/
theorem national_id_eight_characters :
    countryCheck multiByteCert = .ret true ∧
    serialCheck multiByteCert = .ret true ∧
    sliceFrom multiByteCert.Subject.SerialNumber 6 = .ret (go "ñ1234567") ∧
    characterCount (go "ñ1234567") = 8 ∧
    len (go "ñ1234567") = 9 ∧
    VerifyClientCertificate edgeDecoder
        { Names := [], Dnis := [go "ñ1234567"], NameDnis := [] } [] ([3] :: []) [] =
      .ret (none,
        [{ msg := go "client fnmt certificate dni matched", key := go "dni",
           value := go "ñ1234567" }]) := by
  refine ⟨?_, ?_, ?_, ?_, ?_, ?_⟩ <;> decide

/-- C18: the country check comes first.  For a decoded certificate whose country list
is not `["ES"]` the call returns the country error, also when the serial number is
malformed; and the call returns the serial-number error exactly when the country list is
`["ES"]` and the serial number is not a 15-long string that begins with "IDCES-". -/
theorem verify_profile_order (parse : Decoder) (f : FNMTClientAuth) (logger : Logger)
    (raw : List Byte) (rest : List (List Byte)) (chains : List (List Certificate))
    (cert : Certificate) (hparse : parse raw = .ok cert) :
    (cert.Subject.Country ≠ [go "ES"] →
      VerifyClientCertificate parse f logger (raw :: rest) chains =
        .ret (some (go "client fnmt certificate country failed validation"), logger)) ∧
    (VerifyClientCertificate parse f logger (raw :: rest) chains =
        .ret (some (go "client fnmt certificate serial number failed validation"), logger) ↔
      (cert.Subject.Country = [go "ES"] ∧
        ¬ (len cert.Subject.SerialNumber = 15 ∧
          go "IDCES-" <+: cert.Subject.SerialNumber))) := by
  have hcs : go "client fnmt certificate country failed validation" ≠
      go "client fnmt certificate serial number failed validation" := by decide
  have hfs : go "client fnmt certificate failed validation" ≠
      go "client fnmt certificate serial number failed validation" := by decide
  rw [verify_decoded parse f logger raw rest chains cert hparse]
  by_cases hc : cert.Subject.Country = [go "ES"]
  · by_cases hs : len cert.Subject.SerialNumber = 15 ∧
        go "IDCES-" <+: cert.Subject.SerialNumber
    · rw [if_pos hc, if_pos hs]
      refine ⟨fun h => absurd hc h, ?_, fun h => absurd hs h.2⟩
      intro h
      exfalso
      cases hgs : GetFirstAndSurNames cert with
      | panic p =>
        rw [hgs] at h
        cases h
      | ret gs =>
        obtain ⟨g, sn⟩ := gs
        rw [hgs] at h
        simp only [] at h
        rw [matchLists_eq] at h
        split_ifs at h
        · cases h
        · cases h
        · cases h
        · simp only [Exec.ret.injEq, Prod.mk.injEq, Option.some.injEq] at h
          exact hfs h.1
    · rw [if_pos hc, if_neg hs]
      exact ⟨fun h => absurd hc h, fun _ => ⟨hc, hs⟩, fun _ => rfl⟩
  · rw [if_neg hc]
    refine ⟨fun _ => rfl, ?_, fun h => absurd h.1 hc⟩
    intro h
    simp only [Exec.ret.injEq, Prod.mk.injEq, Option.some.injEq] at h
    exact absurd h.1 hcs

/-- C18 on a certificate for country PT with serial number "IDC", which violates both
checks: the error is the one of the country check. -/
theorem verify_profile_order_witness :
    VerifyClientCertificate edgeDecoder allListsVerifier [] ([2] :: []) [] =
      .ret (some (go "client fnmt certificate country failed validation"), []) :=
  (verify_profile_order edgeDecoder allListsVerifier [] [2] [] [] doublyBadCert rfl).1
    (by decide)

/-- C19: the slices of the serial number are in range.  No call aborts on a slice
bound or an index; for every decoded certificate the prefix test returns a Boolean,
also on the empty serial number and on one shorter than 6; a serial number whose length
is not 15 makes the call return an error; and once the prefix test has passed,
`SerialNumber[6:]` is in range. -/
theorem verify_slices_in_range (parse : Decoder) (f : FNMTClientAuth) (logger : Logger)
    (rawCerts : List (List Byte)) (chains : List (List Certificate)) :
    VerifyClientCertificate parse f logger rawCerts chains ≠
      .panic .sliceBoundsOutOfRange ∧
    VerifyClientCertificate parse f logger rawCerts chains ≠ .panic .indexOutOfRange ∧
    (∀ raw rest cert, rawCerts = raw :: rest → parse raw = .ok cert →
      (∃ b, serialCheck cert = .ret b) ∧
      (len cert.Subject.SerialNumber ≠ 15 →
        ∃ e, VerifyClientCertificate parse f logger rawCerts chains =
          .ret (some e, logger)) ∧
      (serialCheck cert = .ret true →
        sliceFrom cert.Subject.SerialNumber 6 =
          .ret (cert.Subject.SerialNumber.drop 6))) := by
  have hpanic : ∀ p, VerifyClientCertificate parse f logger rawCerts chains = .panic p →
      p = .interfaceConversion := by
    intro p h
    cases rawCerts with
    | nil =>
      rw [verify_nil] at h
      cases h
    | cons raw rest =>
      cases hparse : parse raw with
      | error e =>
        rw [verify_undecoded parse f logger raw rest chains e hparse] at h
        cases h
      | ok cert =>
        rw [verify_decoded parse f logger raw rest chains cert hparse] at h
        split_ifs at h
        · cases hgs : GetFirstAndSurNames cert with
          | panic q =>
            rw [hgs] at h
            cases h
            exact GetFirstAndSurNames_panic cert _ hgs
          | ret gs =>
            rw [hgs] at h
            cases h
  refine ⟨fun h => (by cases hpanic _ h), fun h => (by cases hpanic _ h), ?_⟩
  intro raw rest cert hraw hparse
  subst hraw
  refine ⟨⟨_, serialCheck_eq cert⟩, ?_, ?_⟩
  · intro hlen
    rw [verify_decoded parse f logger raw rest chains cert hparse]
    have hs : ¬ (len cert.Subject.SerialNumber = 15 ∧
        go "IDCES-" <+: cert.Subject.SerialNumber) := fun h => hlen h.1
    by_cases hc : cert.Subject.Country = [go "ES"]
    · rw [if_pos hc, if_neg hs]
      exact ⟨_, rfl⟩
    · rw [if_neg hc]
      exact ⟨_, rfl⟩
  · intro hcheck
    rw [serialCheck_eq] at hcheck
    simp only [Exec.ret.injEq, decide_eq_true_eq] at hcheck
    unfold sliceFrom
    rw [if_pos (by omega)]

/-! ## Repeated sub-directives -/

/-- C20: what the code does when a sub-directive is repeated.  Loading `names a b`
followed by `names c` leaves `Names` equal to `[c]`.  Loading `namednis a` followed by
`namednis b` leaves `NameDnis` empty and sets `Dnis` to `[b]`.  Loading `dnis a`, `dnis b`
and then `namednis c` leaves `Dnis` equal to `[c]`, not to the arguments of the last
`dnis` line. -/
theorem repeated_subdirective_load :
    UnmarshalCaddyfile emptyVerifier
        (Dispenser.ofBlock (go "fnmt")
          [{ name := go "names", args := [go "a", go "b"] },
            { name := go "names", args := [go "c"] }]) =
      some (none, { Names := [go "c"], Dnis := [], NameDnis := [] }) ∧
    UnmarshalCaddyfile emptyVerifier
        (Dispenser.ofBlock (go "fnmt")
          [{ name := go "namednis", args := [go "a"] },
            { name := go "namednis", args := [go "b"] }]) =
      some (none, { Names := [], Dnis := [go "b"], NameDnis := [] }) ∧
    UnmarshalCaddyfile emptyVerifier
        (Dispenser.ofBlock (go "fnmt")
          [{ name := go "dnis", args := [go "a"] },
            { name := go "dnis", args := [go "b"] },
            { name := go "namednis", args := [go "c"] }]) =
      some (none, { Names := [], Dnis := [go "c"], NameDnis := [] }) := by
  refine ⟨?_, ?_, ?_⟩
  · rw [unmarshal_last_occurrence _ _ _ (by decide)]
    decide
  · rw [unmarshal_last_occurrence _ _ _ (by decide)]
    decide
  · rw [unmarshal_last_occurrence _ _ _ (by decide)]
    decide

end FNMT
